import Mathlib

/-!
# aliexhbase: the Thrift connection pool

A shallow embedding of `pool.go` and `conn.go` (the pool `ThriftPool`, its operations
`get`, `Get`, `Put`, `Reconnect`, `CloseConn`, `CheckTimeout`, `Release`, `Recover`), followed
by theorems about it.

Modelling conventions.

* The pool is embedded sequentially: one operation runs to completion before the next starts.
  The mutex `p.lock` appears only as `lock` / `unlock` events of the trace that every operation
  returns, together with its `dial`, `close` and `sleep` events.
* `time.Time` and `time.Duration` are integers (nanoseconds). The clock is a value `now` that is
  threaded through the operations; `time.Sleep d` advances it by exactly `d` (by nothing when
  `d ≤ 0`), and no other statement takes time.
* `count` and `MaxConn` are `int32` in the source and `Int32` here: integers between `-2^31`
  and `2^31 - 1`, on which `atomic.AddInt32` and `+`, `-` wrap around (two's complement).
* What the network decides is an explicit argument `Env` of each operation: the outcome of the
  dial, the answer of `transport.IsOpen()`, the result of `transport.Close()`.
* A `*Conn` is a handle built by `NewConn`, which sets `transport` and `THBaseServiceClient`
  before it returns; a possibly-nil `*Conn` argument is an `Option Conn`.
-/

namespace Aliexhbase

/-! ## int32 -/

/-- The type `int32` of the source: an integer between `-2^31` and `2^31 - 1`. -/
structure Int32 where
  val : Int
  lo : -2147483648 ≤ val
  hi : val ≤ 2147483647

instance : DecidableEq Int32 := fun a b =>
  if h : a.val = b.val then
    isTrue (by cases a; cases b; simp_all)
  else
    isFalse (fun e => h (by rw [e]))

instance : Repr Int32 := ⟨fun x n => reprPrec x.val n⟩

/-- Conversion of an integer to `int32`: the value modulo `2^32` that lies in the range of
`int32` (two's complement wrap-around). -/
def wrap32 (x : Int) : Int32 :=
  ⟨(x + 2147483648) % 4294967296 - 2147483648, by omega, by omega⟩

/-- The value that `atomic.AddInt32(&c, delta)` stores: the sum, wrapped around. -/
def AddInt32 (c : Int32) (delta : Int) : Int32 :=
  wrap32 (c.val + delta)

instance (n : Nat) : OfNat Int32 n := ⟨wrap32 n⟩

instance : Add Int32 := ⟨fun a b => AddInt32 a b.val⟩

instance : Sub Int32 := ⟨fun a b => AddInt32 a (-b.val)⟩

instance : LE Int32 := ⟨fun a b => a.val ≤ b.val⟩

instance : LT Int32 := ⟨fun a b => a.val < b.val⟩

instance (a b : Int32) : Decidable (a ≤ b) := inferInstanceAs (Decidable (a.val ≤ b.val))

instance (a b : Int32) : Decidable (a < b) := inferInstanceAs (Decidable (a.val < b.val))

instance : Coe Int32 Int := ⟨Int32.val⟩

/-- The constant `math.MinInt32`. -/
def Int32.minValue : Int32 :=
  ⟨-2147483648, by decide, by decide⟩

/-- The constant `math.MaxInt32`. -/
def Int32.maxValue : Int32 :=
  ⟨2147483647, by decide, by decide⟩

/-! ## Data model -/

/-- PoolStatus of pool.go; in the source `PoolStatus_Stoped` is 0 and `PoolStatus_Open` is 1. -/
inductive PoolStatus where
  | Stoped
  | Open
deriving DecidableEq, Repr

/-- Error values: the package errors of exceptions.go, and three families of foreign errors:
values implementing `net.Error`, values implementing `thrift.TTransportException`, and the rest. -/
inductive Error where
  | ErrOverMax
  | ErrInvalidConn
  | ErrPoolClosed
  | ErrPoolAlreadyOpened
  | ErrSocketDisconnect
  | ErrClientPWDNotSet
  | ErrClientCreateParamsNotEnough
  | ErrClientPoolNotSet
  | net (code : Nat)
  | transport (code : Nat)
  | other (code : Nat)
deriving DecidableEq, Repr

/-- Conn of conn.go: `id` is the identity of the pointer (of the session it owns), `t` the time
the handle was last placed in the idle queue. The fields `transport` and `THBaseServiceClient`
are non-nil for every handle built by `NewConn`, and are not represented. -/
structure Conn where
  id : Nat
  t : Int
deriving DecidableEq, Repr

/-- ThriftPoolConfig of pool.go (the address and the credentials only feed the dial, whose
outcome is an argument of the model). -/
structure ThriftPoolConfig where
  MaxConn : Int32
  ConnTimeout : Int
  IdleTimeout : Int
  Timeout : Int
  Interval : Int
deriving DecidableEq, Repr

/-- ThriftPool of pool.go: `idle` is the `list.List`, front first. -/
structure ThriftPool where
  idle : List Conn
  count : Int32
  status : PoolStatus
  config : ThriftPoolConfig
deriving DecidableEq, Repr

/-- Observable events of an operation. -/
inductive Event where
  | lock
  | unlock
  | sleep (d : Int)
  | dial
  | close (c : Conn)
deriving DecidableEq, Repr

/-- The answers of the network during one operation: `dial` is what `thrift.NewTHttpClient`
followed by `transport.Open()` yields (an error, or the identity of the new session), `IsOpen`
is `transport.IsOpen()`, `Close` is `transport.Close()` (`none` is a nil error). -/
structure Env where
  dial : Except Error Nat
  IsOpen : Conn → Bool
  Close : Conn → Option Error

/-- Result of an operation: the returned value, the pool afterwards, the clock afterwards and
the events the operation performed, in order. -/
structure Out (α : Type) where
  ret : α
  pool : ThriftPool
  now : Int
  trace : List Event

/-! ## conn.go -/

/-- NewConn of conn.go: either of the two failure points returns `(nil, err)`; otherwise a new
handle whose `t` is the zero time. -/
def NewConn (e : Env) : Except Error Conn :=
  match e.dial with
  | .error err => .error err
  | .ok i => .ok { id := i, t := 0 }

/-- Conn.Check of conn.go: the two nil tests are false for a handle built by `NewConn`, which
leaves `c.IsOpen()`. -/
def Check (e : Env) (c : Conn) : Bool :=
  e.IsOpen c

/-! ## pool.go -/

/-- The call `time.Sleep d` on the clock. -/
def Sleep (now d : Int) : Int :=
  if d ≤ 0 then now else now + d

/-- The test `p.idle.Len() == 0 && atomic.LoadInt32(&p.count) >= p.config.MaxConn` of `get`. -/
def overMax (p : ThriftPool) : Bool :=
  p.idle.length == 0 && decide (p.config.MaxConn ≤ p.count)

/-- What the retry loop of `get` hands back: whether it left through the timeout return, the
clock, and the events of the loop. -/
structure Wait where
  timedOut : Bool
  now : Int
  trace : List Event

/-- The `for` loop of `get` (pool.go 141-154), entered with the lock released. Each round
sleeps `Interval`, returns through the timeout when the clock is after `expire`, and otherwise
locks and tests `overMax` again: it unlocks and goes round when the test holds and breaks (with
the lock held) when it does not. `fuel` bounds the number of rounds; `none` means the loop is
still running when the fuel is spent. -/
def waitLoop (p : ThriftPool) (expire : Int) : Nat → Int → Option Wait
  | 0, _ => none
  | fuel + 1, now =>
    let now1 := Sleep now p.config.Interval
    if now1 > expire then
      some ⟨true, now1, [Event.sleep p.config.Interval]⟩
    else if overMax p then
      match waitLoop p expire fuel now1 with
      | none => none
      | some w =>
        some ⟨w.timedOut, w.now,
          Event.sleep p.config.Interval :: Event.lock :: Event.unlock :: w.trace⟩
    else
      some ⟨false, now1, [Event.sleep p.config.Interval, Event.lock]⟩

/-- The part of `get` after the retry loop (pool.go 157-188), entered with the lock held and
with `tr` the events so far. With an empty idle queue it adds one to `count`, unlocks, dials and
checks the new handle, taking the one back on either failure; otherwise it removes the front of
the idle queue, unlocks and checks that handle, subtracting one when it is dead. -/
def getLocked (e : Env) (p : ThriftPool) (now : Int) (tr : List Event) :
    Out (Except Error Conn) :=
  match p.idle with
  | [] =>
    let p1 := { p with count := AddInt32 p.count 1 }
    match NewConn e with
    | .error err =>
      ⟨.error err, { p1 with count := AddInt32 p1.count (-1) }, now, tr ++ [Event.unlock, Event.dial]⟩
    | .ok client =>
      if !Check e client then
        ⟨.error Error.ErrSocketDisconnect, { p1 with count := AddInt32 p1.count (-1) }, now,
          tr ++ [Event.unlock, Event.dial]⟩
      else
        ⟨.ok client, p1, now, tr ++ [Event.unlock, Event.dial]⟩
  | idlec :: rest =>
    let p1 := { p with idle := rest }
    if !Check e idlec then
      ⟨.error Error.ErrSocketDisconnect, { p1 with count := AddInt32 p1.count (-1) }, now,
        tr ++ [Event.unlock]⟩
    else
      ⟨.ok idlec, p1, now, tr ++ [Event.unlock]⟩

/-- ThriftPool.get of pool.go. `none` means that the retry loop did not finish within `fuel`
rounds; `(nil, err)` is `.error err` and `(c, nil)` is `.ok c`. -/
def get (e : Env) (fuel : Nat) (p : ThriftPool) (now expire : Int) :
    Option (Out (Except Error Conn)) :=
  if p.status = PoolStatus.Stoped then
    some ⟨.error Error.ErrPoolClosed, p, now, []⟩
  else if overMax p then
    match waitLoop p expire fuel now with
    | none => none
    | some w =>
      if w.timedOut then
        some ⟨.error Error.ErrOverMax, p, w.now, Event.lock :: Event.unlock :: w.trace⟩
      else
        some (getLocked e p w.now (Event.lock :: Event.unlock :: w.trace))
  else
    some (getLocked e p now [Event.lock])

/-- ThriftPool.Get of pool.go: `get` with the deadline `nowFunc().Add(p.config.Timeout)`. -/
def Get (e : Env) (fuel : Nat) (p : ThriftPool) (now : Int) :
    Option (Out (Except Error Conn)) :=
  get e fuel p now (now + p.config.Timeout)

/-- ThriftPool.Put of pool.go. The returned value is the error of `Put` (`none` is nil). -/
def Put (e : Env) (p : ThriftPool) (now : Int) (client : Option Conn) : Out (Option Error) :=
  match client with
  | none => ⟨none, p, now, []⟩
  | some c =>
    if p.status = PoolStatus.Stoped then
      ⟨e.Close c, p, now, [Event.close c]⟩
    else if decide (p.count > p.config.MaxConn) || !Check e c then
      ⟨e.Close c, { p with count := AddInt32 p.count (-1) }, now, [Event.close c]⟩
    else
      ⟨none, { p with idle := { c with t := now } :: p.idle }, now, [Event.lock, Event.unlock]⟩

/-- ThriftPool.Reconnect of pool.go. -/
def Reconnect (e : Env) (p : ThriftPool) (now : Int) (client : Option Conn) :
    Out (Except Error Conn) :=
  let tr : List Event :=
    match client with
    | none => [Event.dial]
    | some c => [Event.close c, Event.dial]
  match NewConn e with
  | .error err => ⟨.error err, { p with count := AddInt32 p.count (-1) }, now, tr⟩
  | .ok newClient =>
    if !Check e newClient then
      ⟨.error Error.ErrSocketDisconnect, { p with count := AddInt32 p.count (-1) }, now, tr⟩
    else
      ⟨.ok newClient, p, now, tr⟩

/-- ThriftPool.CloseConn of pool.go. -/
def CloseConn (p : ThriftPool) (now : Int) (client : Option Conn) : Out Unit :=
  match client with
  | none => ⟨(), { p with count := AddInt32 p.count (-1) }, now, []⟩
  | some c => ⟨(), { p with count := AddInt32 p.count (-1) }, now, [Event.close c]⟩

/-- The loop of `CheckTimeout` on the idle queue read from its back: the argument lists the
queue back first. The result is the entries that stay (back first) and the handles removed, in
the order of their removal. The loop stops at the first entry with
`v.t.Add(IdleTimeout).After(nowFunc())`. -/
def evict (idleTimeout now : Int) : List Conn → List Conn × List Conn
  | [] => ([], [])
  | v :: rest =>
    if v.t + idleTimeout > now then
      (v :: rest, [])
    else
      ((evict idleTimeout now rest).1, v :: (evict idleTimeout now rest).2)

/-- The events of one round of the loop of `CheckTimeout` that removes `v`. -/
def evictEvents (v : Conn) : List Event :=
  [Event.unlock, Event.close v, Event.lock]

/-- ThriftPool.CheckTimeout of pool.go: every removed handle is closed and takes one off
`count`, by one `atomic.AddInt32(&p.count, -1)` each. -/
def CheckTimeout (p : ThriftPool) (now : Int) : Out Unit :=
  let r := evict p.config.IdleTimeout now p.idle.reverse
  ⟨(), { p with idle := r.1.reverse,
                count := r.2.foldl (fun c _ => AddInt32 c (-1)) p.count }, now,
    Event.lock :: ((r.2.map evictEvents).flatten ++ [Event.unlock])⟩

/-- ThriftPool.Release of pool.go. -/
def Release (p : ThriftPool) (now : Int) : Out Unit :=
  ⟨(), { p with status := PoolStatus.Stoped, count := 0, idle := [] }, now,
    Event.lock :: Event.unlock :: p.idle.map Event.close⟩

/-- ThriftPool.Recover of pool.go. -/
def Recover (p : ThriftPool) : ThriftPool :=
  { p with status := PoolStatus.Open }

/-- ThriftPool.IsOpen of pool.go. -/
def IsOpen (p : ThriftPool) : Bool :=
  decide (p.status ≠ PoolStatus.Stoped)

/-- The pool literal of `NewThriftPool`, before `initConn` starts its `Get` / `Put` pairs. -/
def newPool (config : ThriftPoolConfig) : ThriftPool :=
  { idle := [], count := 0, status := PoolStatus.Open, config := config }

/-! ## client.go -/

/-- Client of client.go: `pool` is the pointer to the pool, `none` when it is nil. -/
structure Client where
  pool : Option ThriftPool

/-- Client.HardClose of client.go: the error returned (`none` is nil), the client afterwards
and the events. -/
def Client.HardClose (c : Client) (now : Int) : Option Error × Client × List Event :=
  match c.pool with
  | none => (some Error.ErrClientPoolNotSet, c, [])
  | some p =>
    if !IsOpen p then
      (some Error.ErrPoolClosed, c, [])
    else
      (none, { pool := some (Release p now).pool }, (Release p now).trace)

/-- Client.Open of client.go: the error returned (`none` is nil) and the client afterwards. -/
def Client.Open (c : Client) : Option Error × Client :=
  match c.pool with
  | none => (some Error.ErrClientPoolNotSet, c)
  | some p =>
    if IsOpen p then
      (some Error.ErrPoolAlreadyOpened, c)
    else
      (none, { pool := some (Recover p) })

/-- The type assertion `err.(net.Error)` of `Client.do`. -/
def Error.isNet : Error → Bool
  | Error.net _ => true
  | _ => false

/-- The type assertion `err.(thrift.TTransportException)` of `Client.do`. -/
def Error.isTransport : Error → Bool
  | Error.transport _ => true
  | _ => false

/-- Result of `Client.do`: the error returned (`none` is nil), the pool and the clock
afterwards, the events of the pool operations it ran, the handles on which it invoked `fn`, in
order, and the number of calls of `Reconnect`. -/
structure DoOut where
  ret : Option Error
  pool : ThriftPool
  now : Int
  trace : List Event
  calls : List Conn
  reconnects : Nat

/-- The deferred function of `Client.do` (client.go 103-120), run when `do` returns with the
local variables `client` and `err` as they are then: nothing for a nil `client`; `Put` when
`err` is nil; `CloseConn` when `err` is a `net.Error` or a `thrift.TTransportException`; `Put`
otherwise. The error of `Put` is logged and dropped. -/
def doDeferred (e : Env) (p : ThriftPool) (now : Int) (client : Option Conn)
    (err : Option Error) : Out Unit :=
  match client with
  | none => ⟨(), p, now, []⟩
  | some c =>
    match err with
    | none => ⟨(), (Put e p now (some c)).pool, (Put e p now (some c)).now,
        (Put e p now (some c)).trace⟩
    | some er =>
      if er.isNet then CloseConn p now (some c)
      else if er.isTransport then CloseConn p now (some c)
      else ⟨(), (Put e p now (some c)).pool, (Put e p now (some c)).now,
        (Put e p now (some c)).trace⟩

/-- Client.do of client.go (`do` is a reserved word here), on the pool of the client. `fn k c`
is what the k-th invocation of the closure (counting from 0) returns on handle `c`; `eGet`,
`eRe` and `ePut` are the answers of the network during `Get`, during `Reconnect` and during
the deferred function. `none` means that `Get` did not finish within `fuel` rounds.

The result of `do` is unnamed, so `return fn(client)` after a successful `Reconnect` does not
assign the local `err`: the deferred function then runs with the `err` that `Reconnect` left,
which is nil. -/
def Client.doFn (eGet eRe ePut : Env) (fuel : Nat) (fn : Nat → Conn → Option Error)
    (p : ThriftPool) (now : Int) : Option DoOut :=
  match Get eGet fuel p now with
  | none => none
  | some g =>
    match g.ret with
    | .error err => some ⟨some err, g.pool, g.now, g.trace, [], 0⟩
    | .ok client =>
      match fn 0 client with
      | none =>
        let d := doDeferred ePut g.pool g.now (some client) none
        some ⟨none, d.pool, d.now, g.trace ++ d.trace, [client], 0⟩
      | some err =>
        if err.isNet || err.isTransport then
          let r := Reconnect eRe g.pool g.now (some client)
          match r.ret with
          | .error err2 => some ⟨some err2, r.pool, r.now, g.trace ++ r.trace, [client], 1⟩
          | .ok client2 =>
            let d := doDeferred ePut r.pool r.now (some client2) none
            some ⟨fn 1 client2, d.pool, d.now, g.trace ++ r.trace ++ d.trace,
              [client, client2], 1⟩
        else
          let d := doDeferred ePut g.pool g.now (some client) (some err)
          some ⟨some err, d.pool, d.now, g.trace ++ d.trace, [client], 0⟩

/-! ## Sequences of operations

The callers of the pool: a state `Sys` pairs the pool with the handles the callers hold and with
bookkeeping that the source does not store (how many handles were dialed, closed, dropped). -/

/-- The pool together with its callers. `held` lists the handles given out by `Get` or
`Reconnect` since the last `Release` and not yet given back; `stale` lists the handles that
were held when `Release` ran and are not yet given back. `dialed` counts the successful dials,
`closed` the `close` events, `dropped` the handles that an operation let go without closing
them (a handle that failed `Check` in `get` or `Reconnect`). `stamps` lists the clock values at
which `Put` placed a handle in the idle queue. -/
structure Sys where
  pool : ThriftPool
  now : Int
  held : List Conn
  stale : List Conn
  dialed : Nat
  closed : Nat
  dropped : Nat
  stamps : List Int
deriving DecidableEq, Repr

/-- One call of a caller (or the passing of `d` units of time between two calls). -/
inductive Op where
  | Get (e : Env) (fuel : Nat)
  | Put (e : Env) (c : Conn)
  | Reconnect (e : Env) (c : Conn)
  | CloseConn (c : Conn)
  | CheckTimeout
  | Release
  | Recover
  | tick (d : Nat)

/-- The state right after the pool literal of `NewThriftPool` is built, at clock `now`. -/
def Sys.init (config : ThriftPoolConfig) (now : Int) : Sys :=
  { pool := newPool config, now := now, held := [], stale := [],
    dialed := 0, closed := 0, dropped := 0, stamps := [] }

/-- Number of `close` events of a trace. -/
def closes : List Event → Nat
  | [] => 0
  | Event.close _ :: tr => closes tr + 1
  | _ :: tr => closes tr

/-- Number of successful dials of an operation: one when the trace has a `dial` event and the
network answered with a session. -/
def dials (e : Env) (tr : List Event) : Nat :=
  match e.dial with
  | .ok _ => if Event.dial ∈ tr then 1 else 0
  | .error _ => 0

/-- The caller holds `c`: it got it from `Get` or `Reconnect` and has not given it back. -/
def Sys.holds (s : Sys) (c : Conn) : Bool :=
  decide (c ∈ s.held) || decide (c ∈ s.stale)

/-- The stricter discipline: `c` was obtained since the last `Release`. -/
def Sys.holdsFresh (s : Sys) (c : Conn) : Bool :=
  decide (c ∈ s.held)

/-- May the caller pass `c` to `Put`? Under the strict discipline a handle from before the
last `Release` may still be passed to `Put` while the pool is stopped. -/
def Sys.mayPut (strict : Bool) (s : Sys) (c : Conn) : Bool :=
  if strict then
    s.holdsFresh c || (decide (c ∈ s.stale) && decide (s.pool.status = PoolStatus.Stoped))
  else s.holds c

/-- May the caller pass `c` to `CloseConn` or `Reconnect`? -/
def Sys.mayClose (strict : Bool) (s : Sys) (c : Conn) : Bool :=
  if strict then s.holdsFresh c else s.holds c

/-- The holdings after the caller has given `c` back. -/
def Sys.giveBack (s : Sys) (c : Conn) : List Conn × List Conn :=
  if c ∈ s.held then (s.held.erase c, s.stale) else (s.held, s.stale.erase c)

/-- One step of the callers. `none` means that the call is not allowed (the caller does not
hold the handle it passes) or that `Get` did not finish within its fuel. -/
def step (strict : Bool) (s : Sys) : Op → Option Sys
  | Op.Get e fuel =>
    match Get e fuel s.pool s.now with
    | none => none
    | some out =>
      match out.ret with
      | .ok c =>
        some { s with pool := out.pool, now := out.now, held := c :: s.held,
                      dialed := s.dialed + dials e out.trace,
                      closed := s.closed + closes out.trace }
      | .error _ =>
        some { s with pool := out.pool, now := out.now,
                      dialed := s.dialed + dials e out.trace,
                      closed := s.closed + closes out.trace,
                      dropped := s.dropped + dials e out.trace
                        + (s.pool.idle.length - out.pool.idle.length) }
  | Op.Put e c =>
    if s.mayPut strict c then
      let out := Put e s.pool s.now (some c)
      some { s with pool := out.pool, now := out.now,
                    held := (s.giveBack c).1, stale := (s.giveBack c).2,
                    closed := s.closed + closes out.trace,
                    stamps := if s.pool.idle.length < out.pool.idle.length
                              then s.now :: s.stamps else s.stamps }
    else none
  | Op.Reconnect e c =>
    if s.mayClose strict c then
      let out := Reconnect e s.pool s.now (some c)
      match out.ret with
      | .ok n =>
        some { s with pool := out.pool, now := out.now,
                      held := n :: (s.giveBack c).1, stale := (s.giveBack c).2,
                      dialed := s.dialed + dials e out.trace,
                      closed := s.closed + closes out.trace }
      | .error _ =>
        some { s with pool := out.pool, now := out.now,
                      held := (s.giveBack c).1, stale := (s.giveBack c).2,
                      dialed := s.dialed + dials e out.trace,
                      closed := s.closed + closes out.trace,
                      dropped := s.dropped + dials e out.trace }
    else none
  | Op.CloseConn c =>
    if s.mayClose strict c then
      let out := CloseConn s.pool s.now (some c)
      some { s with pool := out.pool, now := out.now,
                    held := (s.giveBack c).1, stale := (s.giveBack c).2,
                    closed := s.closed + closes out.trace }
    else none
  | Op.CheckTimeout =>
    let out := CheckTimeout s.pool s.now
    some { s with pool := out.pool, now := out.now, closed := s.closed + closes out.trace }
  | Op.Release =>
    let out := Release s.pool s.now
    some { s with pool := out.pool, now := out.now, held := [], stale := s.held ++ s.stale,
                  closed := s.closed + closes out.trace }
  | Op.Recover => some { s with pool := Recover s.pool }
  | Op.tick d => some { s with now := s.now + d }

/-- A sequence of steps. -/
def run (strict : Bool) : Sys → List Op → Option Sys
  | s, [] => some s
  | s, op :: ops =>
    match step strict s op with
    | none => none
    | some s1 => run strict s1 ops

/-- Number of `sleep` events of a trace. -/
def sleeps : List Event → Nat
  | [] => 0
  | Event.sleep _ :: tr => sleeps tr + 1
  | _ :: tr => sleeps tr

/-- The handles closed by a trace, in the order of their `close` events. -/
def closedConns : List Event → List Conn
  | [] => []
  | Event.close c :: tr => c :: closedConns tr
  | _ :: tr => closedConns tr

/-- Number of `dial` events of a trace. -/
def dialEvents : List Event → Nat
  | [] => 0
  | Event.dial :: tr => dialEvents tr + 1
  | _ :: tr => dialEvents tr

/-- An idle entry whose idle time is used up at clock `now`: `t + IdleTimeout ≤ now`, the
negation of the test `v.t.Add(IdleTimeout).After(nowFunc())` that ends the loop of
`CheckTimeout`. -/
def expired (idleTimeout now : Int) (c : Conn) : Bool :=
  decide (c.t + idleTimeout ≤ now)

/-- What a call of `Client.do` returned and left behind: the error returned, the idle queue and
the counter afterwards, the handles closed, and the handles `fn` was invoked on. -/
def DoOut.view (o : DoOut) : Option Error × List Conn × Int × List Conn × List Conn :=
  (o.ret, o.pool.idle, o.pool.count.val, closedConns o.trace, o.calls)

/-- The counter of the pool that an operation leaves, as an integer. -/
def Out.countVal {α : Type} (o : Out α) : Int :=
  o.pool.count.val

/-- The counter of the pool of a state. -/
def Sys.count (s : Sys) : Int :=
  s.pool.count.val

/-- The status, the idle queue and the counter of the pool of a state. -/
def Sys.view (s : Sys) : PoolStatus × List Conn × Int :=
  (s.pool.status, s.pool.idle, s.pool.count.val)

/-- The counter of the pool of a state with the bookkeeping of dialed, closed, dropped and
stale handles. -/
def Sys.books (s : Sys) : Int × Nat × Nat × Nat × Nat :=
  (s.pool.count.val, s.dialed, s.closed, s.dropped, s.stale.length)

/-! ## Concrete scenarios -/

/-- A configuration with one connection, a 50ms acquire timeout and a 10ms retry interval. -/
def cfg1 : ThriftPoolConfig :=
  { MaxConn := 1, ConnTimeout := 2000000000, IdleTimeout := 900000000000,
    Timeout := 50000000, Interval := 10000000 }

/-- A network where the dial yields session `i`, every transport is open, and closing
succeeds. -/
def envUp (i : Nat) : Env :=
  { dial := .ok i, IsOpen := fun _ => true, Close := fun _ => none }

/-- A network where the dial yields session `i` and every transport reports closed. -/
def envDown (i : Nat) : Env :=
  { dial := .ok i, IsOpen := fun _ => false, Close := fun _ => none }

/-- A network where the dial fails and every transport reports closed. -/
def envOff : Env :=
  { dial := .error (Error.net 111), IsOpen := fun _ => false, Close := fun _ => none }

/-- The handle that `NewConn` builds for session 7. -/
def h7 : Conn :=
  { id := 7, t := 0 }

/-- A caller borrows a handle, the pool is stopped and resumed, and the handle, by then dead,
is put back. -/
def staleDeadPut : List Op :=
  [Op.Get (envUp 7) 0, Op.Release, Op.Recover, Op.Put (envDown 0) h7]

/-- A caller borrows a handle, the pool is stopped, and the caller closes the handle through
the exported method `CloseConn`. -/
def staleCloseConn : List Op :=
  [Op.Get (envUp 7) 0, Op.Release, Op.CloseConn h7]

/-- A caller borrows a handle, the pool is stopped and resumed, and the handle, still alive, is
put back. -/
def staleAlivePut : List Op :=
  [Op.Get (envUp 7) 0, Op.Release, Op.Recover, Op.Put (envUp 0) h7]

/-- A handle is borrowed and put back, dies while idle, and is found dead by the next `Get`. -/
def deadIdleGet : List Op :=
  [Op.Get (envUp 7) 0, Op.tick 5, Op.Put (envUp 0) h7, Op.Get (envDown 0) 0]

/-- A caller borrows a handle and the pool is stopped. -/
def borrowThenRelease : List Op :=
  [Op.Get (envUp 7) 0, Op.Release]

/-- A run that keeps to the strict discipline: a handle is borrowed, put back after 5 units of
time, borrowed again, the pool is stopped, the handle is put back into the stopped pool, and the
pool is resumed. -/
def orderlyRun : List Op :=
  [Op.Get (envUp 7) 0, Op.tick 5, Op.Put (envUp 0) h7, Op.Get (envUp 8) 0, Op.Release,
    Op.Put (envUp 0) { id := 7, t := 5 }, Op.Recover]

/-- The state that `orderlyRun` reaches from the new pool of `cfg1` at clock 0. -/
def orderlyEnd : Sys :=
  { pool := { idle := [], count := 0, status := PoolStatus.Open, config := cfg1 },
    now := 5, held := [], stale := [], dialed := 1, closed := 1, dropped := 0, stamps := [5] }

/-- A run that keeps to the strict discipline and ends with one idle handle. -/
def idleRun : List Op :=
  [Op.Get (envUp 7) 0, Op.tick 5, Op.Put (envUp 0) h7, Op.tick 3]

/-- The state that `idleRun` reaches from the new pool of `cfg1` at clock 0. -/
def idleEnd : Sys :=
  { pool := { idle := [{ id := 7, t := 5 }], count := 1, status := PoolStatus.Open,
              config := cfg1 },
    now := 8, held := [], stale := [], dialed := 1, closed := 0, dropped := 0, stamps := [5] }

/-- A run that keeps to the strict discipline and ends with the only handle borrowed and a
second `Get` timed out. -/
def borrowRun : List Op :=
  [Op.Get (envUp 7) 0, Op.CheckTimeout, Op.Get (envUp 8) 6]

/-- The state that `borrowRun` reaches from the new pool of `cfg1` at clock 0. -/
def borrowEnd : Sys :=
  { pool := { idle := [], count := 1, status := PoolStatus.Open, config := cfg1 },
    now := 60000000, held := [h7], stale := [], dialed := 1, closed := 0, dropped := 0,
    stamps := [] }

/-- A stopped pool of `cfg1`. -/
def stoppedPool : ThriftPool :=
  { idle := [], count := 0, status := PoolStatus.Stoped, config := cfg1 }

/-- An open pool of `cfg1` with the handle of session 7 idle since clock 5. -/
def idlePool : ThriftPool :=
  { idle := [{ id := 7, t := 5 }], count := 1, status := PoolStatus.Open, config := cfg1 }

/-- An open pool of `cfg1` whose only handle is borrowed. -/
def fullPool : ThriftPool :=
  { idle := [], count := 1, status := PoolStatus.Open, config := cfg1 }

/-- A network where every transport reports closed and closing fails. -/
def envCloseErr : Env :=
  { dial := .error (Error.net 111), IsOpen := fun _ => false,
    Close := fun _ => some (Error.other 5) }

/-- A configuration with four connections and an idle timeout of 10. -/
def cfg4 : ThriftPoolConfig :=
  { MaxConn := 4, ConnTimeout := 0, IdleTimeout := 10, Timeout := 50, Interval := 10 }

/-- An open pool of `cfg4` with four idle handles: at clock 50 the front one and the two at the
back have used up their idle time, the second one has not. -/
def mixedPool : ThriftPool :=
  { idle := [{ id := 1, t := 0 }, { id := 2, t := 100 }, { id := 3, t := 20 },
             { id := 4, t := 10 }],
    count := 4, status := PoolStatus.Open, config := cfg4 }

/-- An open pool of `cfg1` over its cap: two handles counted, one of them idle. -/
def overPool : ThriftPool :=
  { idle := [{ id := 7, t := 5 }], count := 2, status := PoolStatus.Open, config := cfg1 }

/-- An open pool of `cfg4` whose counter is at the minimum of `int32`, with one idle handle
stamped at clock 5. -/
def minPool : ThriftPool :=
  { idle := [{ id := 7, t := 5 }], count := Int32.minValue, status := PoolStatus.Open,
    config := cfg4 }

/-- A caller borrows a handle, the pool is stopped and resumed, the handle, still alive, is put
back, and after the idle timeout of `cfg1` the eviction loop runs. -/
def staleAlivePutEvict : List Op :=
  [Op.Get (envUp 7) 0, Op.Release, Op.Recover, Op.Put (envUp 0) h7, Op.tick 900000000000,
    Op.CheckTimeout]

/-- A closure that fails with a `net.Error` on every invocation. -/
def fnNetAlways : Nat → Conn → Option Error :=
  fun k _ => some (Error.net (k + 1))

/-- A closure that fails with a `net.Error` on its first invocation and succeeds afterwards. -/
def fnNetOnce : Nat → Conn → Option Error :=
  fun k _ => if k = 0 then some (Error.net 1) else none

/-- A closure that fails with an error of the remote service on every invocation. -/
def fnRemoteErr : Nat → Conn → Option Error :=
  fun _ _ => some (Error.other 42)

/-- The idle queue is in recency order and no entry is stamped after the clock: the times `t`
do not increase from the front to the back. -/
def Ordered (s : Sys) : Prop :=
  s.pool.idle.Pairwise (fun a b => b.t ≤ a.t) ∧ ∀ c ∈ s.pool.idle, c.t ≤ s.now

/-- A run with two handles put back at clocks 5 and 9. -/
def twoIdleRun : List Op :=
  [Op.Get (envUp 7) 0, Op.Get (envUp 8) 0, Op.tick 5, Op.Put (envUp 0) h7, Op.tick 4,
    Op.Put (envUp 0) { id := 8, t := 0 }, Op.tick 6]

/-- The state that `twoIdleRun` reaches from the new pool of `cfg4` at clock 0. -/
def twoIdleEnd : Sys :=
  { pool := { idle := [{ id := 8, t := 9 }, { id := 7, t := 5 }], count := 2,
              status := PoolStatus.Open, config := cfg4 },
    now := 15, held := [], stale := [], dialed := 2, closed := 0, dropped := 0,
    stamps := [9, 5] }

/-- The accounting that holds between operations when callers keep to the strict discipline.
`count` is the number of handles idle or held since the last `Release`; a stopped pool has
nothing idle and nothing held; every dialed handle is closed, dropped, idle, held or stale;
every idle handle carries a time stamped by `Put`, not after the clock. -/
structure Inv (cfg : ThriftPoolConfig) (s : Sys) : Prop where
  config : s.pool.config = cfg
  count : s.pool.count.val = (s.pool.idle.length : Int) + (s.held.length : Int)
  stopped : s.pool.status = PoolStatus.Stoped → s.pool.idle = [] ∧ s.held = []
  ledger : s.dialed
    = s.closed + s.dropped + s.pool.idle.length + s.held.length + s.stale.length
  stamped : ∀ c ∈ s.pool.idle, c.t ∈ s.stamps ∧ c.t ≤ s.now

/-- What also holds between operations under the strict discipline when `MaxConn` is not
negative: the cap, and an empty idle queue while the pool is stopped. -/
structure Weak (cfg : ThriftPoolConfig) (s : Sys) : Prop where
  config : s.pool.config = cfg
  cap : s.pool.count ≤ cfg.MaxConn
  stopped : s.pool.status = PoolStatus.Stoped → s.pool.idle = []

/-! ## Lemmas on int32 -/

theorem Int32.ext {a b : Int32} (h : a.val = b.val) : a = b := by
  cases a
  cases b
  simp_all

theorem Int32.le_iff (a b : Int32) : a ≤ b ↔ a.val ≤ b.val := Iff.rfl

theorem Int32.lt_iff (a b : Int32) : a < b ↔ a.val < b.val := Iff.rfl

theorem Int32.not_le (a b : Int32) : ¬ a ≤ b ↔ b < a := by
  rw [Int32.le_iff, Int32.lt_iff]
  omega

theorem Int32.not_lt (a b : Int32) : ¬ a < b ↔ b ≤ a := by
  rw [Int32.le_iff, Int32.lt_iff]
  omega

theorem Int32.val_zero : (0 : Int32).val = 0 := rfl

theorem Int32.val_one : (1 : Int32).val = 1 := rfl

theorem Int32.add_one (c : Int32) : c + 1 = AddInt32 c 1 := rfl

theorem Int32.sub_one (c : Int32) : c - 1 = AddInt32 c (-1) := rfl

theorem AddInt32_val (c : Int32) (d : Int) :
    (AddInt32 c d).val = (c.val + d + 2147483648) % 4294967296 - 2147483648 := rfl

/-- Without overflow `atomic.AddInt32` is the addition of integers. -/
theorem AddInt32_val_of_range (c : Int32) (d : Int) (h1 : -2147483648 ≤ c.val + d)
    (h2 : c.val + d ≤ 2147483647) : (AddInt32 c d).val = c.val + d := by
  rw [AddInt32_val]
  omega

theorem AddInt32_AddInt32 (c : Int32) (a b : Int) :
    AddInt32 (AddInt32 c a) b = AddInt32 c (a + b) := by
  apply Int32.ext
  simp only [AddInt32_val]
  omega

theorem AddInt32_zero (c : Int32) : AddInt32 c 0 = c := by
  apply Int32.ext
  have h1 := c.lo
  have h2 := c.hi
  rw [AddInt32_val]
  omega

/-- Adding one and taking it back restores the counter, also across the wrap-around. -/
theorem AddInt32_one_neg_one (c : Int32) : AddInt32 (AddInt32 c 1) (-1) = c := by
  rw [AddInt32_AddInt32]
  exact AddInt32_zero c

/-- Taking one off and adding it back restores the counter, also across the wrap-around. -/
theorem AddInt32_neg_one_one (c : Int32) : AddInt32 (AddInt32 c (-1)) 1 = c := by
  rw [AddInt32_AddInt32]
  exact AddInt32_zero c

theorem AddInt32_zero_one : AddInt32 0 1 = 1 := by
  decide

/-- Taking one off the counter once for each element of a list takes its length off. -/
theorem foldl_AddInt32 (l : List Conn) (c : Int32) :
    l.foldl (fun c _ => AddInt32 c (-1)) c = AddInt32 c (-(l.length : Int)) := by
  induction l generalizing c with
  | nil => simp [AddInt32_zero]
  | cons v rest ih =>
    rw [List.foldl_cons, ih, AddInt32_AddInt32]
    congr 1
    simp only [List.length_cons]
    push_cast
    ring

/-! ## Lemmas on the operations -/

@[simp] theorem closes_nil : closes [] = 0 := rfl

@[simp] theorem closes_lock (tr : List Event) : closes (Event.lock :: tr) = closes tr := rfl

@[simp] theorem closes_unlock (tr : List Event) : closes (Event.unlock :: tr) = closes tr := rfl

@[simp] theorem closes_sleep (d : Int) (tr : List Event) :
    closes (Event.sleep d :: tr) = closes tr := rfl

@[simp] theorem closes_dial (tr : List Event) : closes (Event.dial :: tr) = closes tr := rfl

@[simp] theorem closes_close (c : Conn) (tr : List Event) :
    closes (Event.close c :: tr) = closes tr + 1 := rfl

@[simp] theorem closes_append (a b : List Event) : closes (a ++ b) = closes a + closes b := by
  induction a with
  | nil => simp
  | cons x xs ih =>
    cases x <;> simp [ih]
    omega

theorem Sleep_ge (now d : Int) : now ≤ Sleep now d := by
  unfold Sleep
  split <;> omega

/-- The retry loop closes nothing, dials nothing, never turns the clock back, and leaves
through its `break` only when the pool is no longer over its cap. -/
theorem waitLoop_spec (p : ThriftPool) (expire : Int) (fuel : Nat) :
    ∀ (now : Int) (w : Wait), waitLoop p expire fuel now = some w →
      closes w.trace = 0 ∧ Event.dial ∉ w.trace ∧ now ≤ w.now ∧
        (w.timedOut = false → overMax p = false) := by
  induction fuel with
  | zero => intro now w h; simp [waitLoop] at h
  | succ n ih =>
    intro now w h
    have hs := Sleep_ge now p.config.Interval
    simp only [waitLoop] at h
    split at h
    · cases h; simp [hs]
    · split at h
      · split at h
        · cases h
        · rename_i w1 hw1
          cases h
          obtain ⟨h1, h2, h3, h4⟩ := ih _ _ hw1
          refine ⟨by simp [h1], by simp [h2], by simp only; omega, by simpa using h4⟩
      · rename_i hov
        cases h
        refine ⟨by simp, by simp, hs, fun _ => by simpa using hov⟩

/-- The two ways `get` can end: without touching the pool (closed pool, or timeout of the retry
loop), or through `getLocked` on a pool that is open and not over its cap. -/
theorem get_cases (e : Env) (fuel : Nat) (p : ThriftPool) (now expire : Int)
    (out : Out (Except Error Conn)) (h : get e fuel p now expire = some out) :
    (out.pool = p ∧ (∃ err, out.ret = .error err) ∧ closes out.trace = 0 ∧
        Event.dial ∉ out.trace ∧ now ≤ out.now) ∨
    (p.status = PoolStatus.Open ∧ overMax p = false ∧
      ∃ now1 tr, now ≤ now1 ∧ closes tr = 0 ∧ Event.dial ∉ tr ∧
        out = getLocked e p now1 tr) := by
  unfold get at h
  have hst : p.status ≠ PoolStatus.Stoped → p.status = PoolStatus.Open := by
    cases p.status <;> simp
  split at h
  · cases h; left; simp
  · rename_i hs
    split at h
    · split at h
      · cases h
      · rename_i w hw
        obtain ⟨h1, h2, h3, h4⟩ := waitLoop_spec _ _ _ _ _ hw
        split at h
        · cases h; left
          exact ⟨rfl, ⟨_, rfl⟩, by simp [h1], by simp [h2], h3⟩
        · rename_i ht
          cases h; right
          refine ⟨hst hs, h4 (by simpa using ht), w.now, _, h3, by simp [h1], by simp [h2], rfl⟩
    · rename_i hov
      cases h; right
      exact ⟨hst hs, by simpa using hov, now, _, le_refl _, by simp, by simp, rfl⟩

theorem dials_of_not_mem (e : Env) (tr : List Event) (h : Event.dial ∉ tr) :
    dials e tr = 0 := by
  unfold dials
  split
  · simp [h]
  · rfl

theorem dials_of_ok (e : Env) (tr : List Event) (i : Nat) (hi : e.dial = .ok i)
    (h : Event.dial ∈ tr) : dials e tr = 1 := by
  unfold dials
  rw [hi]
  simp [h]

theorem dials_of_error (e : Env) (tr : List Event) (err : Error) (hi : e.dial = .error err) :
    dials e tr = 0 := by
  unfold dials
  rw [hi]

/-- The five ways `getLocked` can end. -/
theorem getLocked_cases (e : Env) (p : ThriftPool) (now : Int) (tr : List Event)
    (hc : closes tr = 0) (hd : Event.dial ∉ tr) :
    (getLocked e p now tr).now = now ∧ closes (getLocked e p now tr).trace = 0 ∧
    (getLocked e p now tr).pool.status = p.status ∧
    (getLocked e p now tr).pool.config = p.config ∧
    ((p.idle = [] ∧ (∃ err, (getLocked e p now tr).ret = .error err) ∧
        (getLocked e p now tr).pool.idle = [] ∧ (getLocked e p now tr).pool.count = p.count ∧
        dials e (getLocked e p now tr).trace = 0) ∨
     (p.idle = [] ∧ (∃ err, (getLocked e p now tr).ret = .error err) ∧
        (getLocked e p now tr).pool.idle = [] ∧ (getLocked e p now tr).pool.count = p.count ∧
        dials e (getLocked e p now tr).trace = 1) ∨
     (p.idle = [] ∧ (∃ c, (getLocked e p now tr).ret = .ok c) ∧
        (getLocked e p now tr).pool.idle = [] ∧
        (getLocked e p now tr).pool.count = p.count + 1 ∧
        dials e (getLocked e p now tr).trace = 1) ∨
     (∃ c rest, p.idle = c :: rest ∧ (∃ err, (getLocked e p now tr).ret = .error err) ∧
        (getLocked e p now tr).pool.idle = rest ∧
        (getLocked e p now tr).pool.count = p.count - 1 ∧
        dials e (getLocked e p now tr).trace = 0) ∨
     (∃ c rest, p.idle = c :: rest ∧ (getLocked e p now tr).ret = .ok c ∧
        (getLocked e p now tr).pool.idle = rest ∧
        (getLocked e p now tr).pool.count = p.count ∧
        dials e (getLocked e p now tr).trace = 0)) := by
  unfold getLocked
  cases hidle : p.idle with
  | nil =>
    cases hdial : e.dial with
    | error err =>
      have hz := dials_of_error e (tr ++ [Event.unlock, Event.dial]) err hdial
      simp [NewConn, hdial, hc, hz, AddInt32_one_neg_one]
    | ok i =>
      have hz := dials_of_ok e (tr ++ [Event.unlock, Event.dial]) i hdial (by simp)
      by_cases hck : Check e ⟨i, 0⟩ <;>
        simp [NewConn, hdial, hc, hz, hck, AddInt32_one_neg_one, Int32.add_one]
  | cons c rest =>
    have hz := dials_of_not_mem e (tr ++ [Event.unlock]) (by simp [hd])
    by_cases hck : Check e c <;> simp [hc, hz, hck, Int32.sub_one]

theorem overMax_false_nil (p : ThriftPool) (h : overMax p = false) (hi : p.idle = []) :
    p.count < p.config.MaxConn := by
  simp only [overMax, hi, List.length_nil, beq_self_eq_true, Bool.true_and,
    decide_eq_false_iff_not, Int32.le_iff] at h
  rw [Int32.lt_iff]
  omega

/-! ## The accounting is kept by every step -/

theorem step_Get_Inv (cfg : ThriftPoolConfig) (strict : Bool) (s s1 : Sys) (e : Env)
    (fuel : Nat) (hI : Inv cfg s) (h : step strict s (Op.Get e fuel) = some s1) :
    Inv cfg s1 := by
  simp only [step] at h
  split at h
  · cases h
  · rename_i out hget
    unfold Get at hget
    rcases get_cases _ _ _ _ _ _ hget with
      ⟨hp, ⟨err, hret⟩, hc, hd, hn⟩ | ⟨hopen, hov, now1, tr, hn, hc, hd, rfl⟩
    · rw [hret] at h
      simp only at h
      cases h
      have hz := dials_of_not_mem e _ hd
      refine ⟨?_, ?_, ?_, ?_, ?_⟩
      · simp [hp, hI.config]
      · simpa [hp] using hI.count
      · simpa [hp] using hI.stopped
      · simp only [hp, hc, hz]
        have := hI.ledger
        omega
      · intro c hcm
        simp only [hp] at hcm
        have := hI.stamped c hcm
        exact ⟨this.1, le_trans this.2 hn⟩
    · obtain ⟨hnow, hcl, hst, hcfg, hcases⟩ := getLocked_cases e s.pool now1 tr hc hd
      have hcount := hI.count
      have hled := hI.ledger
      have hnst : ¬ (getLocked e s.pool now1 tr).pool.status = PoolStatus.Stoped := by
        rw [hst, hopen]; simp
      have hstamp : ∀ rest : List Conn, (∀ c ∈ rest, c ∈ s.pool.idle) →
          ∀ c ∈ rest, c.t ∈ s.stamps ∧ c.t ≤ now1 := fun rest hr c hcm =>
        ⟨(hI.stamped c (hr c hcm)).1, le_trans (hI.stamped c (hr c hcm)).2 hn⟩
      rcases hcases with ⟨hi, ⟨err, hret⟩, hidle, hcnt, hdl⟩ | ⟨hi, ⟨err, hret⟩, hidle, hcnt, hdl⟩ |
        ⟨hi, ⟨c, hret⟩, hidle, hcnt, hdl⟩ | ⟨c, rest, hi, ⟨err, hret⟩, hidle, hcnt, hdl⟩ |
        ⟨c, rest, hi, hret, hidle, hcnt, hdl⟩
      all_goals
        rw [hret] at h
        simp only at h
        cases h
        refine ⟨?_, ?_, ?_, ?_, ?_⟩
      all_goals dsimp only
      all_goals first
        | (rw [hcfg]; exact hI.config)
        | (intro hs; exact absurd hs hnst)
        | (intro x hx
           rw [hidle] at hx
           rw [hnow]
           refine hstamp _ ?_ x hx
           intro y hy
           rw [hi]
           first
             | exact absurd hy (List.not_mem_nil y)
             | exact List.mem_cons_of_mem _ hy)
        | (have hlt := (Int32.lt_iff _ _).mp (overMax_false_nil _ hov hi)
           have hlo := s.pool.count.lo
           have hmax := s.pool.config.MaxConn.hi
           have hcv := congrArg Int32.val hcnt
           simp only [Int32.add_one, Int32.sub_one, AddInt32_val] at hcv
           simp only [hi, hidle, hdl, hcl, List.length_cons, List.length_nil]
             at hcount hled ⊢
           push_cast at hcount hled ⊢
           omega)
        | (have hlo := s.pool.count.lo
           have hhi := s.pool.count.hi
           have hcv := congrArg Int32.val hcnt
           simp only [Int32.add_one, Int32.sub_one, AddInt32_val] at hcv
           simp only [hi, hidle, hdl, hcl, List.length_cons, List.length_nil]
             at hcount hled ⊢
           push_cast at hcount hled ⊢
           omega)

theorem status_cases (p : ThriftPool) :
    p.status = PoolStatus.Stoped ∨ p.status = PoolStatus.Open := by
  cases p.status <;> simp

/-- The three ways `Put` of a non-nil handle can end. -/
theorem Put_cases (e : Env) (p : ThriftPool) (now : Int) (c : Conn) :
    (Put e p now (some c)).now = now ∧
    (Put e p now (some c)).pool.status = p.status ∧
    (Put e p now (some c)).pool.config = p.config ∧
    ((p.status = PoolStatus.Stoped ∧ (Put e p now (some c)).pool = p ∧
        closes (Put e p now (some c)).trace = 1) ∨
     (p.status = PoolStatus.Open ∧ (Put e p now (some c)).pool.idle = p.idle ∧
        (Put e p now (some c)).pool.count = p.count - 1 ∧
        closes (Put e p now (some c)).trace = 1) ∨
     (p.status = PoolStatus.Open ∧
        (Put e p now (some c)).pool.idle = { c with t := now } :: p.idle ∧
        (Put e p now (some c)).pool.count = p.count ∧
        closes (Put e p now (some c)).trace = 0)) := by
  unfold Put
  rcases status_cases p with hs | hs
  · simp [hs]
  · by_cases hb : (decide (p.count > p.config.MaxConn) || !Check e c) = true
    · simp only [hs, hb]; simp [Int32.sub_one]
    · simp only [hs, hb]; simp

theorem giveBack_held (s : Sys) (c : Conn) (h : c ∈ s.held) :
    s.giveBack c = (s.held.erase c, s.stale) := by
  simp [Sys.giveBack, h]

theorem giveBack_stale (s : Sys) (c : Conn) (h : c ∉ s.held) :
    s.giveBack c = (s.held, s.stale.erase c) := by
  simp [Sys.giveBack, h]

theorem length_erase_add_one (l : List Conn) (c : Conn) (h : c ∈ l) :
    (l.erase c).length + 1 = l.length := by
  have h1 := List.length_erase_of_mem h
  have h2 := List.length_pos_of_mem h
  omega

theorem step_Put_Inv (cfg : ThriftPoolConfig) (s s1 : Sys) (e : Env) (c : Conn)
    (hI : Inv cfg s) (h : step true s (Op.Put e c) = some s1) : Inv cfg s1 := by
  simp only [step] at h
  split at h
  · rename_i hg
    cases h
    obtain ⟨hnow, hst, hcfg, hcases⟩ := Put_cases e s.pool s.now c
    have hcount := hI.count
    have hled := hI.ledger
    simp only [Sys.mayPut, Sys.holdsFresh, if_true, Bool.or_eq_true, Bool.and_eq_true,
      decide_eq_true_eq] at hg
    rcases hcases with ⟨hs, hp, hcl⟩ | ⟨hs, hidle, hcnt, hcl⟩ | ⟨hs, hidle, hcnt, hcl⟩
    · obtain ⟨hi0, hh0⟩ := hI.stopped hs
      have hnh : c ∉ s.held := by simp [hh0]
      have hcs : c ∈ s.stale := by
        rcases hg with hg | hg
        · exact absurd hg hnh
        · exact hg.1
      have hlen := length_erase_add_one _ _ hcs
      rw [giveBack_stale s c hnh]
      refine ⟨?_, ?_, ?_, ?_, ?_⟩ <;> dsimp only
      · rw [hcfg]; exact hI.config
      · rw [hp]; exact hcount
      · intro _; rw [hp]; exact ⟨hi0, hh0⟩
      · rw [hp, hcl]; omega
      · rw [hp, hnow]; simpa using hI.stamped
    · have hch : c ∈ s.held := by
        rcases hg with hg | hg
        · exact hg
        · rw [hs] at hg; simp at hg
      have hlen := length_erase_add_one _ _ hch
      rw [giveBack_held s c hch]
      refine ⟨?_, ?_, ?_, ?_, ?_⟩ <;> dsimp only
      · rw [hcfg]; exact hI.config
      · rw [hidle, hcnt, Int32.sub_one, AddInt32_val]
        have hlo := s.pool.count.lo
        have hhi := s.pool.count.hi
        omega
      · intro h2; rw [hst, hs] at h2; simp at h2
      · rw [hidle, hcl]; omega
      · rw [hidle, hnow]; simpa using hI.stamped
    · have hch : c ∈ s.held := by
        rcases hg with hg | hg
        · exact hg
        · rw [hs] at hg; simp at hg
      have hlen := length_erase_add_one _ _ hch
      rw [giveBack_held s c hch]
      refine ⟨?_, ?_, ?_, ?_, ?_⟩ <;> dsimp only
      · rw [hcfg]; exact hI.config
      · rw [hidle, hcnt]; simp only [List.length_cons]; push_cast; omega
      · intro h2; rw [hst, hs] at h2; simp at h2
      · rw [hidle, hcl]; simp only [List.length_cons]; omega
      · rw [hidle, hnow]
        intro x hx
        simp only [List.length_cons, Nat.lt_succ_self, if_true]
        rcases List.mem_cons.mp hx with hx | hx
        · subst hx; simp
        · have := hI.stamped x hx
          exact ⟨List.mem_cons_of_mem _ this.1, this.2⟩
  · cases h

/-- The three ways `Reconnect` of a non-nil handle can end. -/
theorem Reconnect_cases (e : Env) (p : ThriftPool) (now : Int) (c : Conn) :
    (Reconnect e p now (some c)).now = now ∧
    (Reconnect e p now (some c)).pool.status = p.status ∧
    (Reconnect e p now (some c)).pool.config = p.config ∧
    (Reconnect e p now (some c)).pool.idle = p.idle ∧
    closes (Reconnect e p now (some c)).trace = 1 ∧
    (((∃ err, (Reconnect e p now (some c)).ret = .error err) ∧
        (Reconnect e p now (some c)).pool.count = p.count - 1 ∧
        dials e (Reconnect e p now (some c)).trace = 0) ∨
     ((∃ err, (Reconnect e p now (some c)).ret = .error err) ∧
        (Reconnect e p now (some c)).pool.count = p.count - 1 ∧
        dials e (Reconnect e p now (some c)).trace = 1) ∨
     ((∃ n, (Reconnect e p now (some c)).ret = .ok n) ∧
        (Reconnect e p now (some c)).pool.count = p.count ∧
        dials e (Reconnect e p now (some c)).trace = 1)) := by
  unfold Reconnect
  cases hdial : e.dial with
  | error err =>
    have hz := dials_of_error e [Event.close c, Event.dial] err hdial
    simp [NewConn, hdial, hz, Int32.sub_one]
  | ok i =>
    have hz := dials_of_ok e [Event.close c, Event.dial] i hdial (by simp)
    by_cases hck : Check e ⟨i, 0⟩ <;> simp [NewConn, hdial, hz, hck, Int32.sub_one]

theorem step_Reconnect_Inv (cfg : ThriftPoolConfig) (s s1 : Sys) (e : Env) (c : Conn)
    (hI : Inv cfg s) (h : step true s (Op.Reconnect e c) = some s1) : Inv cfg s1 := by
  simp only [step] at h
  split at h
  · rename_i hg
    simp only [Sys.mayClose, Sys.holdsFresh, if_true, decide_eq_true_eq] at hg
    obtain ⟨hnow, hst, hcfg, hidle, hcl, hcases⟩ := Reconnect_cases e s.pool s.now c
    have hcount := hI.count
    have hled := hI.ledger
    have hlen := length_erase_add_one _ _ hg
    have hopen : ¬ s.pool.status = PoolStatus.Stoped := by
      intro hs
      rw [(hI.stopped hs).2] at hg
      simp at hg
    have hstamp : ∀ x ∈ s.pool.idle, x.t ∈ s.stamps ∧ x.t ≤ s.now := hI.stamped
    rw [giveBack_held s c hg] at h
    rcases hcases with ⟨⟨err, hret⟩, hcnt, hdl⟩ | ⟨⟨err, hret⟩, hcnt, hdl⟩ |
      ⟨⟨n, hret⟩, hcnt, hdl⟩
    all_goals
      rw [hret] at h
      simp only at h
      cases h
      refine ⟨?_, ?_, ?_, ?_, ?_⟩ <;> dsimp only
    all_goals first
      | (rw [hcfg]; exact hI.config)
      | (intro hs; rw [hst] at hs; exact absurd hs hopen)
      | (rw [hidle, hnow]; exact hstamp)
      | (have hlo := s.pool.count.lo
         have hhi := s.pool.count.hi
         have hcv := congrArg Int32.val hcnt
         simp only [Int32.sub_one, AddInt32_val] at hcv
         simp only [hidle, hdl, hcl, List.length_cons] at hcount hled ⊢
         push_cast at hcount hled ⊢
         omega)
  · cases h

theorem step_CloseConn_Inv (cfg : ThriftPoolConfig) (s s1 : Sys) (c : Conn)
    (hI : Inv cfg s) (h : step true s (Op.CloseConn c) = some s1) : Inv cfg s1 := by
  simp only [step] at h
  split at h
  · rename_i hg
    simp only [Sys.mayClose, Sys.holdsFresh, if_true, decide_eq_true_eq] at hg
    have hcount := hI.count
    have hled := hI.ledger
    have hlen := length_erase_add_one _ _ hg
    have hopen : ¬ s.pool.status = PoolStatus.Stoped := by
      intro hs
      rw [(hI.stopped hs).2] at hg
      simp at hg
    rw [giveBack_held s c hg] at h
    cases h
    have hlo := s.pool.count.lo
    have hhi := s.pool.count.hi
    refine ⟨?_, ?_, ?_, ?_, ?_⟩ <;>
      simp only [CloseConn, closes_close, closes_nil, AddInt32_val]
    · exact hI.config
    · omega
    · intro hs; exact absurd hs hopen
    · omega
    · exact hI.stamped
  · cases h

/-- The loop of `CheckTimeout` splits the queue (read back first) into the removed handles and
the entries that stay. -/
theorem evict_append (d now : Int) (l : List Conn) :
    (evict d now l).2 ++ (evict d now l).1 = l := by
  induction l with
  | nil => simp [evict]
  | cons v rest ih =>
    unfold evict
    split
    · simp
    · simp [ih]

theorem closes_evictEvents (l : List Conn) :
    closes ((l.map evictEvents).flatten) = l.length := by
  induction l with
  | nil => simp
  | cons v rest ih => simp [evictEvents, ih]

/-- CheckTimeout keeps a front part of the idle queue and closes the rest. -/
theorem CheckTimeout_spec (p : ThriftPool) (now : Int) :
    (CheckTimeout p now).now = now ∧
    (CheckTimeout p now).pool.status = p.status ∧
    (CheckTimeout p now).pool.config = p.config ∧
    (CheckTimeout p now).pool.idle
      ++ (evict p.config.IdleTimeout now p.idle.reverse).2.reverse = p.idle ∧
    (CheckTimeout p now).pool.count
      = AddInt32 p.count
          (-((evict p.config.IdleTimeout now p.idle.reverse).2.length : Int)) ∧
    closes (CheckTimeout p now).trace
      = (evict p.config.IdleTimeout now p.idle.reverse).2.length := by
  refine ⟨rfl, rfl, rfl, ?_, ?_, ?_⟩
  · have h := congrArg List.reverse (evict_append p.config.IdleTimeout now p.idle.reverse)
    simpa [CheckTimeout] using h
  · simp only [CheckTimeout, foldl_AddInt32]
  · simp [CheckTimeout, closes_evictEvents]

theorem closes_map_close (l : List Conn) : closes (l.map Event.close) = l.length := by
  induction l with
  | nil => simp
  | cons v rest ih => simp [ih]

theorem step_CheckTimeout_Inv (cfg : ThriftPoolConfig) (strict : Bool) (s s1 : Sys)
    (hI : Inv cfg s) (h : step strict s Op.CheckTimeout = some s1) : Inv cfg s1 := by
  simp only [step] at h
  cases h
  obtain ⟨hnow, hst, hcfg, hidle, hcnt, hcl⟩ := CheckTimeout_spec s.pool s.now
  have hcount := hI.count
  have hled := hI.ledger
  have hlen := congrArg List.length hidle
  simp only [List.length_append, List.length_reverse] at hlen
  refine ⟨?_, ?_, ?_, ?_, ?_⟩ <;> dsimp only
  · rw [hcfg]; exact hI.config
  · rw [hcnt, AddInt32_val]
    have hlo := s.pool.count.lo
    have hhi := s.pool.count.hi
    omega
  · intro hs
    rw [hst] at hs
    obtain ⟨hi0, hh0⟩ := hI.stopped hs
    rw [hi0] at hidle
    exact ⟨(List.append_eq_nil.mp hidle).1, hh0⟩
  · rw [hcl]; omega
  · intro x hx
    rw [hnow]
    exact hI.stamped x (by rw [← hidle]; exact List.mem_append_left _ hx)

theorem step_Release_Inv (cfg : ThriftPoolConfig) (strict : Bool)
    (s s1 : Sys) (hI : Inv cfg s) (h : step strict s Op.Release = some s1) : Inv cfg s1 := by
  simp only [step] at h
  cases h
  have hled := hI.ledger
  refine ⟨?_, ?_, ?_, ?_, ?_⟩ <;> dsimp only [Release]
  · exact hI.config
  · simp [Int32.val_zero]
  · intro _; exact ⟨rfl, rfl⟩
  · simp only [closes_lock, closes_unlock, closes_map_close, List.length_nil,
      List.length_append]
    omega
  · intro x hx; simp at hx

theorem step_Recover_Inv (cfg : ThriftPoolConfig) (strict : Bool) (s s1 : Sys)
    (hI : Inv cfg s) (h : step strict s Op.Recover = some s1) : Inv cfg s1 := by
  simp only [step] at h
  cases h
  refine ⟨?_, ?_, ?_, ?_, ?_⟩ <;> simp only [Recover]
  · exact hI.config
  · exact hI.count
  · intro hs; simp at hs
  · exact hI.ledger
  · exact hI.stamped

theorem step_tick_Inv (cfg : ThriftPoolConfig) (strict : Bool) (s s1 : Sys) (d : Nat)
    (hI : Inv cfg s) (h : step strict s (Op.tick d) = some s1) : Inv cfg s1 := by
  simp only [step] at h
  cases h
  refine ⟨hI.config, hI.count, hI.stopped, hI.ledger, ?_⟩
  intro x hx
  have := hI.stamped x hx
  exact ⟨this.1, by dsimp only; omega⟩

/-- Every step under the strict discipline keeps the accounting. -/
theorem step_Inv (cfg : ThriftPoolConfig) (s s1 : Sys) (op : Op)
    (hI : Inv cfg s) (h : step true s op = some s1) : Inv cfg s1 := by
  cases op with
  | Get e fuel => exact step_Get_Inv cfg true s s1 e fuel hI h
  | Put e c => exact step_Put_Inv cfg s s1 e c hI h
  | Reconnect e c => exact step_Reconnect_Inv cfg s s1 e c hI h
  | CloseConn c => exact step_CloseConn_Inv cfg s s1 c hI h
  | CheckTimeout => exact step_CheckTimeout_Inv cfg true s s1 hI h
  | Release => exact step_Release_Inv cfg true s s1 hI h
  | Recover => exact step_Recover_Inv cfg true s s1 hI h
  | tick d => exact step_tick_Inv cfg true s s1 d hI h

theorem init_Inv (cfg : ThriftPoolConfig) (now : Int) :
    Inv cfg (Sys.init cfg now) := by
  refine ⟨rfl, ?_, ?_, rfl, ?_⟩
  · simp [Sys.init, newPool, Int32.val_zero]
  · intro hs; simp [Sys.init, newPool] at hs
  · intro x hx; simp [Sys.init, newPool] at hx

/-- The accounting holds in every state that a run under the strict discipline reaches. -/
theorem run_Inv (cfg : ThriftPoolConfig) (ops : List Op) :
    ∀ (s s1 : Sys), Inv cfg s → run true s ops = some s1 → Inv cfg s1 := by
  induction ops with
  | nil =>
    intro s s1 hI h
    simp only [run] at h
    cases h
    exact hI
  | cons op rest ih =>
    intro s s1 hI h
    simp only [run] at h
    split at h
    · cases h
    · rename_i s2 hs2
      exact ih s2 s1 (step_Inv cfg s s2 op hI hs2) h

/-! ## The cap is kept under the strict discipline -/

/-- A counter that is not negative before one `atomic.AddInt32` with a delta between `-2^31`
and 1, and that was below the cap when the delta is 1, stays within the cap. -/
theorem cap_AddInt32 (a b m : Int32) (d : Int) (hb : b = AddInt32 a d)
    (hd1 : d ≤ 1) (hd2 : -2147483648 ≤ d) (hlt : d = 1 → a.val < m.val)
    (ha : a.val ≤ m.val) (ha0 : 0 ≤ a.val) : b.val ≤ m.val := by
  have h1 := m.hi
  have h2 := congrArg Int32.val hb
  rw [AddInt32_val] at h2
  by_cases h : d = 1
  · have := hlt h
    omega
  · omega

theorem step_Weak (cfg : ThriftPoolConfig) (h0 : 0 ≤ cfg.MaxConn)
    (s s1 : Sys) (op : Op) (hI : Inv cfg s) (hW : Weak cfg s)
    (h : step true s op = some s1) : Weak cfg s1 := by
  have hI1 := step_Inv cfg s s1 op hI h
  have hn1 : 0 ≤ s1.pool.count.val := by
    have := hI1.count
    omega
  have hn0 : 0 ≤ s.pool.count.val := by
    have := hI.count
    omega
  have hcap := (Int32.le_iff _ _).mp hW.cap
  refine ⟨hI1.config, ?_, fun hs => (hI1.stopped hs).1⟩
  rw [Int32.le_iff]
  cases op with
  | Get e fuel =>
    simp only [step] at h
    split at h
    · cases h
    · rename_i out hget
      unfold Get at hget
      have hout : s1.pool = out.pool := by
        split at h <;> cases h <;> rfl
      rw [hout] at hn1 ⊢
      rcases get_cases _ _ _ _ _ _ hget with
        ⟨hp, _, _, _, _⟩ | ⟨hopen, hov, now1, tr, hn, hc, hd, rfl⟩
      · rw [hp]; exact hcap
      · obtain ⟨_, _, hst, hcfg, hcases⟩ := getLocked_cases e s.pool now1 tr hc hd
        rcases hcases with ⟨hi, _, _, hcnt, _⟩ | ⟨hi, _, _, hcnt, _⟩ |
          ⟨hi, _, _, hcnt, _⟩ | ⟨c, rest, hi, _, _, hcnt, _⟩ | ⟨c, rest, hi, _, _, hcnt, _⟩
        · rw [hcnt]; exact hcap
        · rw [hcnt]; exact hcap
        · have hlt := (Int32.lt_iff _ _).mp (overMax_false_nil _ hov hi)
          rw [hW.config] at hlt
          exact cap_AddInt32 _ _ _ 1 hcnt (by omega) (by omega) (fun _ => hlt) hcap hn0
        · exact cap_AddInt32 _ _ _ (-1) hcnt (by omega) (by omega) (by omega) hcap hn0
        · rw [hcnt]; exact hcap
  | Put e c =>
    simp only [step] at h
    split at h
    · cases h
      obtain ⟨_, hst, hcfg, hcases⟩ := Put_cases e s.pool s.now c
      dsimp only at hn1 ⊢
      rcases hcases with ⟨_, hp, _⟩ | ⟨_, _, hcnt, _⟩ | ⟨_, _, hcnt, _⟩
      · rw [hp]; exact hcap
      · exact cap_AddInt32 _ _ _ (-1) hcnt (by omega) (by omega) (by omega) hcap hn0
      · rw [hcnt]; exact hcap
    · cases h
  | Reconnect e c =>
    simp only [step] at h
    split at h
    · obtain ⟨_, hst, hcfg, hidle, _, hcases⟩ := Reconnect_cases e s.pool s.now c
      have hout : s1.pool = (Reconnect e s.pool s.now (some c)).pool := by
        split at h <;> cases h <;> rfl
      rw [hout] at hn1 ⊢
      rcases hcases with ⟨_, hcnt, _⟩ | ⟨_, hcnt, _⟩ | ⟨_, hcnt, _⟩
      · exact cap_AddInt32 _ _ _ (-1) hcnt (by omega) (by omega) (by omega) hcap hn0
      · exact cap_AddInt32 _ _ _ (-1) hcnt (by omega) (by omega) (by omega) hcap hn0
      · rw [hcnt]; exact hcap
    · cases h
  | CloseConn c =>
    simp only [step] at h
    split at h
    · cases h
      exact cap_AddInt32 _ _ _ (-1) rfl (by omega) (by omega) (by omega) hcap hn0
    · cases h
  | CheckTimeout =>
    simp only [step] at h
    cases h
    obtain ⟨_, hst, hcfg, hidle, hcnt, _⟩ := CheckTimeout_spec s.pool s.now
    have hlen := congrArg List.length hidle
    simp only [List.length_append, List.length_reverse] at hlen
    have hcount := hI.count
    have hhi := s.pool.count.hi
    dsimp only at hn1 ⊢
    exact cap_AddInt32 _ _ _ _ hcnt (by omega) (by omega) (by omega) hcap hn0
  | Release =>
    simp only [step] at h
    cases h
    exact (Int32.le_iff _ _).mp h0
  | Recover =>
    simp only [step] at h
    cases h
    exact hcap
  | tick d =>
    simp only [step] at h
    cases h
    exact hcap

theorem init_Weak (cfg : ThriftPoolConfig) (h0 : 0 ≤ cfg.MaxConn) (now : Int) :
    Weak cfg (Sys.init cfg now) := by
  refine ⟨rfl, ?_, ?_⟩
  · simpa [Sys.init, newPool] using h0
  · intro _; rfl

/-- The cap holds in every state that a run under the strict discipline reaches. -/
theorem run_Weak (cfg : ThriftPoolConfig) (h0 : 0 ≤ cfg.MaxConn) (ops : List Op) :
    ∀ (s s1 : Sys), Inv cfg s → Weak cfg s → run true s ops = some s1 → Weak cfg s1 := by
  induction ops with
  | nil =>
    intro s s1 _ hW h
    simp only [run] at h
    cases h
    exact hW
  | cons op rest ih =>
    intro s s1 hI hW h
    simp only [run] at h
    split at h
    · cases h
    · rename_i s2 hs2
      exact ih s2 s1 (step_Inv cfg s s2 op hI hs2) (step_Weak cfg h0 s s2 op hI hW hs2) h

/-! ## Acquire on a single pool state -/

/-- C5: on a stopped pool `get`, with any deadline, and `Get` return `(nil, ErrPoolClosed)` at
once: no event at all (no lock, sleep or dial), the clock and the pool (idle queue, counter,
status) are unchanged, and no fuel is needed (no round of the retry loop runs). -/
theorem C5_get_stopped (e : Env) (fuel : Nat) (p : ThriftPool) (now expire : Int)
    (hs : p.status = PoolStatus.Stoped) :
    get e fuel p now expire = some ⟨.error Error.ErrPoolClosed, p, now, []⟩ ∧
    Get e fuel p now = some ⟨.error Error.ErrPoolClosed, p, now, []⟩ ∧
    get e 0 p now expire = some ⟨.error Error.ErrPoolClosed, p, now, []⟩ := by
  simp [Get, get, hs]

theorem C5_get_stopped_witness :
    stoppedPool.status = PoolStatus.Stoped ∧
    get envOff 3 stoppedPool 0 10 = some ⟨.error Error.ErrPoolClosed, stoppedPool, 0, []⟩ ∧
    Get envOff 3 stoppedPool 0 = some ⟨.error Error.ErrPoolClosed, stoppedPool, 0, []⟩ ∧
    get envOff 0 stoppedPool 0 10 = some ⟨.error Error.ErrPoolClosed, stoppedPool, 0, []⟩ :=
  ⟨rfl, C5_get_stopped envOff 3 stoppedPool 0 10 rfl⟩

/-- C6: on an open pool whose idle queue is `c :: rest` with `c` alive, `Get` returns `c` with
no error, the idle queue becomes `rest` (same entries, same order), nothing else of the pool
changes (so the counter is unchanged), and the only events are a lock and an unlock: no dial and
no sleep. -/
theorem C6_get_idle_alive (e : Env) (fuel : Nat) (p : ThriftPool) (now : Int) (c : Conn)
    (rest : List Conn) (hs : p.status = PoolStatus.Open) (hi : p.idle = c :: rest)
    (hc : Check e c = true) :
    Get e fuel p now
      = some ⟨.ok c, { p with idle := rest }, now, [Event.lock, Event.unlock]⟩ := by
  simp [Get, get, getLocked, overMax, hs, hi, hc]

theorem C6_get_idle_alive_witness :
    idlePool.status = PoolStatus.Open ∧ idlePool.idle = { id := 7, t := 5 } :: [] ∧
    Check (envUp 9) { id := 7, t := 5 } = true ∧
    Get (envUp 9) 0 idlePool 8
      = some ⟨.ok { id := 7, t := 5 }, { idlePool with idle := [] }, 8,
          [Event.lock, Event.unlock]⟩ :=
  ⟨rfl, rfl, rfl, C6_get_idle_alive (envUp 9) 0 idlePool 8 _ [] rfl rfl rfl⟩

/-- C7, as stated, fails at the minimum of `int32`: on the open pool `minPool`, whose counter
is `-2147483648` and whose idle handle is dead, `Get` leaves the counter at `2147483647`, not
one less. -/
theorem C7_counterexample :
    minPool.status = PoolStatus.Open ∧ minPool.idle = [{ id := 7, t := 5 }] ∧
    Check (envDown 9) { id := 7, t := 5 } = false ∧ minPool.count.val = -2147483648 ∧
    Option.map Out.countVal (Get (envDown 9) 0 minPool 8) = some 2147483647 := by
  decide

/-- C7, amended: on an open pool whose idle queue is `c :: rest` with `c` dead, `Get` returns
`(nil, ErrSocketDisconnect)`, the idle queue becomes `rest`, the counter is the old counter
minus one in `int32` arithmetic, and the only events are a lock and an unlock (the dead handle
is not closed, nothing is dialed). The counter goes down by exactly one whenever it is above
the minimum of `int32`; at the minimum it wraps around to `2147483647`. -/
theorem C7_get_idle_dead (e : Env) (fuel : Nat) (p : ThriftPool) (now : Int) (c : Conn)
    (rest : List Conn) (hs : p.status = PoolStatus.Open) (hi : p.idle = c :: rest)
    (hc : Check e c = false) :
    Get e fuel p now
      = some ⟨.error Error.ErrSocketDisconnect, { p with idle := rest, count := p.count - 1 },
          now, [Event.lock, Event.unlock]⟩ ∧
    (-2147483648 < p.count.val → (p.count - 1).val = p.count.val - 1) ∧
    (p.count.val = -2147483648 → (p.count - 1).val = 2147483647) := by
  have hlo := p.count.lo
  have hhi := p.count.hi
  refine ⟨?_, ?_, ?_⟩
  · simp [Get, get, getLocked, overMax, hs, hi, hc, Int32.sub_one]
  · intro h
    rw [Int32.sub_one, AddInt32_val]
    omega
  · intro h
    rw [Int32.sub_one, AddInt32_val]
    omega

theorem C7_get_idle_dead_witness :
    idlePool.status = PoolStatus.Open ∧ idlePool.idle = { id := 7, t := 5 } :: [] ∧
    Check (envDown 9) { id := 7, t := 5 } = false ∧
    -2147483648 < idlePool.count.val ∧
    Get (envDown 9) 0 idlePool 8
      = some ⟨.error Error.ErrSocketDisconnect,
          { idlePool with idle := [], count := idlePool.count - 1 }, 8,
          [Event.lock, Event.unlock]⟩ ∧
    (idlePool.count - 1).val = idlePool.count.val - 1 :=
  ⟨rfl, rfl, rfl, by decide,
    (C7_get_idle_dead (envDown 9) 0 idlePool 8 _ [] rfl rfl rfl).1,
    (C7_get_idle_dead (envDown 9) 0 idlePool 8 _ [] rfl rfl rfl).2.1 (by decide)⟩

/-- C8: on an open pool with an empty idle queue and `count < MaxConn`, when the dial yields
session `i` and the new handle is alive, `Get` returns the new handle with no error, the
counter becomes the old counter plus one, and the idle queue stays empty. -/
theorem C8_get_dial_ok (e : Env) (fuel : Nat) (p : ThriftPool) (now : Int) (i : Nat)
    (hs : p.status = PoolStatus.Open) (hi : p.idle = []) (hlt : p.count < p.config.MaxConn)
    (hd : e.dial = .ok i) (hc : Check e { id := i, t := 0 } = true) :
    Get e fuel p now
      = some ⟨.ok { id := i, t := 0 }, { p with count := p.count + 1 }, now,
          [Event.lock, Event.unlock, Event.dial]⟩ ∧
    ({ p with count := p.count + 1 } : ThriftPool).idle = [] ∧
    (p.count + 1).val = p.count.val + 1 := by
  have hlt2 : ¬ p.config.MaxConn ≤ p.count := (Int32.not_le _ _).mpr hlt
  refine ⟨?_, hi, ?_⟩
  · simp [Get, get, getLocked, overMax, NewConn, hs, hi, hc, hd, hlt2, Int32.add_one]
  · have h1 := (Int32.lt_iff _ _).mp hlt
    have h2 := p.config.MaxConn.hi
    have h3 := p.count.lo
    rw [Int32.add_one, AddInt32_val]
    omega

theorem C8_get_dial_ok_witness :
    (newPool cfg1).status = PoolStatus.Open ∧ (newPool cfg1).idle = [] ∧
    (newPool cfg1).count < (newPool cfg1).config.MaxConn ∧ (envUp 7).dial = .ok 7 ∧
    Check (envUp 7) { id := 7, t := 0 } = true ∧
    Get (envUp 7) 0 (newPool cfg1) 0
      = some ⟨.ok { id := 7, t := 0 }, { newPool cfg1 with count := (newPool cfg1).count + 1 },
          0, [Event.lock, Event.unlock, Event.dial]⟩ ∧
    ({ newPool cfg1 with count := (newPool cfg1).count + 1 } : ThriftPool).idle = [] ∧
    ((newPool cfg1).count + 1).val = (newPool cfg1).count.val + 1 :=
  ⟨rfl, rfl, by decide, rfl, rfl,
    C8_get_dial_ok (envUp 7) 0 (newPool cfg1) 0 7 rfl rfl (by decide) rfl rfl⟩

/-- C9: on an open pool with an empty idle queue and `count < MaxConn`, a failed dial makes
`Get` return the dial error, and a dialed handle that is dead makes it return
`ErrSocketDisconnect`; in both cases the pool after the call is the pool before it (counter and
idle queue included). -/
theorem C9_get_dial_rollback (e : Env) (fuel : Nat) (p : ThriftPool) (now : Int)
    (hs : p.status = PoolStatus.Open) (hi : p.idle = []) (hlt : p.count < p.config.MaxConn) :
    (∀ err, e.dial = .error err →
      Get e fuel p now
        = some ⟨.error err, p, now, [Event.lock, Event.unlock, Event.dial]⟩) ∧
    (∀ i, e.dial = .ok i → Check e { id := i, t := 0 } = false →
      Get e fuel p now
        = some ⟨.error Error.ErrSocketDisconnect, p, now,
            [Event.lock, Event.unlock, Event.dial]⟩) := by
  have hlt2 : ¬ p.config.MaxConn ≤ p.count := (Int32.not_le _ _).mpr hlt
  constructor
  · intro err hd
    simp [Get, get, getLocked, overMax, NewConn, hs, hi, hd, hlt2, AddInt32_one_neg_one]
    rw [← hs, ← hi]
  · intro i hd hc
    simp [Get, get, getLocked, overMax, NewConn, hs, hi, hd, hc, hlt2, AddInt32_one_neg_one]
    rw [← hs, ← hi]

theorem C9_get_dial_rollback_witness :
    (newPool cfg1).status = PoolStatus.Open ∧ (newPool cfg1).idle = [] ∧
    (newPool cfg1).count < (newPool cfg1).config.MaxConn ∧
    envOff.dial = .error (Error.net 111) ∧
    Get envOff 0 (newPool cfg1) 0
      = some ⟨.error (Error.net 111), newPool cfg1, 0,
          [Event.lock, Event.unlock, Event.dial]⟩ ∧
    (envDown 7).dial = .ok 7 ∧ Check (envDown 7) { id := 7, t := 0 } = false ∧
    Get (envDown 7) 0 (newPool cfg1) 0
      = some ⟨.error Error.ErrSocketDisconnect, newPool cfg1, 0,
          [Event.lock, Event.unlock, Event.dial]⟩ :=
  ⟨rfl, rfl, by decide, rfl,
    (C9_get_dial_rollback envOff 0 (newPool cfg1) 0 rfl rfl (by decide)).1 _ rfl,
    rfl, rfl,
    (C9_get_dial_rollback (envDown 7) 0 (newPool cfg1) 0 rfl rfl (by decide)).2 7 rfl rfl⟩

/-! ## Exhaustion -/

/-- The retry loop on a pool that stays over its cap, with a positive interval: when the
deadline lies at least `m` and less than `m + 1` intervals ahead, `m + 1` rounds of fuel are
enough, and the loop leaves through the timeout after exactly `m + 1` sleeps, with nothing but
sleeps, locks and unlocks in its trace. -/
theorem waitLoop_timeout (p : ThriftPool) (expire : Int) (hov : overMax p = true)
    (hI : 0 < p.config.Interval) (m : Nat) :
    ∀ (fuel : Nat) (now : Int), m + 1 ≤ fuel →
      now + (m : Int) * p.config.Interval ≤ expire →
      expire < now + ((m : Int) + 1) * p.config.Interval →
      ∃ w, waitLoop p expire fuel now = some w ∧ w.timedOut = true ∧
        w.now = now + ((m : Int) + 1) * p.config.Interval ∧ sleeps w.trace = m + 1 ∧
        Event.dial ∉ w.trace := by
  induction m with
  | zero =>
    intro fuel now hf h1 h2
    obtain ⟨f, rfl⟩ : ∃ f, fuel = f + 1 := ⟨fuel - 1, by omega⟩
    have hsl : Sleep now p.config.Interval = now + p.config.Interval := by
      unfold Sleep
      rw [if_neg (by omega)]
    simp only [Nat.cast_zero, zero_mul, add_zero, zero_add, one_mul] at h1 h2 ⊢
    refine ⟨⟨true, now + p.config.Interval, [Event.sleep p.config.Interval]⟩, ?_, rfl, rfl,
      rfl, by simp⟩
    simp only [waitLoop, hsl]
    rw [if_pos (by omega)]
  | succ n ih =>
    intro fuel now hf h1 h2
    obtain ⟨f, rfl⟩ : ∃ f, fuel = f + 1 := ⟨fuel - 1, by omega⟩
    have hsl : Sleep now p.config.Interval = now + p.config.Interval := by
      unfold Sleep
      rw [if_neg (by omega)]
    have hmul : ((n + 1 : Nat) : Int) * p.config.Interval
        = (n : Int) * p.config.Interval + p.config.Interval := by
      push_cast
      ring
    have hmul2 : (((n + 1 : Nat) : Int) + 1) * p.config.Interval
        = ((n : Int) + 1) * p.config.Interval + p.config.Interval := by
      push_cast
      ring
    have hmul3 : ((n : Int) + 1) * p.config.Interval
        = (n : Int) * p.config.Interval + p.config.Interval := by
      ring
    have hn0 : 0 ≤ (n : Int) * p.config.Interval :=
      mul_nonneg (Int.ofNat_nonneg n) (le_of_lt hI)
    rw [hmul] at h1
    rw [hmul2] at h2
    obtain ⟨w, hw, ht, hnow, hsl2, hdl⟩ :=
      ih f (now + p.config.Interval) (by omega) (by omega) (by omega)
    refine ⟨⟨w.timedOut, w.now,
      Event.sleep p.config.Interval :: Event.lock :: Event.unlock :: w.trace⟩, ?_, ht, ?_, ?_,
      ?_⟩
    · simp only [waitLoop, hsl]
      rw [if_neg (by omega), if_pos hov, hw]
    · rw [hmul2, hnow]
      omega
    · simp only [sleeps, hsl2]
    · simp [hdl]

/-- The retry loop on a pool that stays over its cap does not end while the clock is not after
the deadline: with a positive interval and at most `m` rounds of fuel, where the deadline lies
at least `m` intervals ahead, the loop is still running when the fuel is spent. -/
theorem waitLoop_running (p : ThriftPool) (expire : Int) (hov : overMax p = true)
    (hI : 0 < p.config.Interval) (fuel : Nat) :
    ∀ (now : Int), now + (fuel : Int) * p.config.Interval ≤ expire →
      waitLoop p expire fuel now = none := by
  induction fuel with
  | zero => intro now _; rfl
  | succ n ih =>
    intro now h1
    have hsl : Sleep now p.config.Interval = now + p.config.Interval := by
      unfold Sleep
      rw [if_neg (by omega)]
    have hmul : ((n + 1 : Nat) : Int) * p.config.Interval
        = (n : Int) * p.config.Interval + p.config.Interval := by
      push_cast
      ring
    have hn0 : 0 ≤ (n : Int) * p.config.Interval :=
      mul_nonneg (Int.ofNat_nonneg n) (le_of_lt hI)
    rw [hmul] at h1
    have hrec := ih (now + p.config.Interval) (by omega)
    simp only [waitLoop, hsl]
    rw [if_neg (by omega), if_pos hov, hrec]

/-- C10: on an open pool with an empty idle queue and `count ≥ MaxConn` that nobody else
changes, with `Interval > 0`, `Timeout ≥ 0` and a clock that moves by exactly `Interval` per
sleep, `Get` ends with `(nil, ErrOverMax)` as soon as it is given `Timeout / Interval + 1`
rounds: it sleeps exactly that many times, dials and closes nothing, leaves the pool as it
was, and the time it took is more than `Timeout` and at most `Timeout + Interval`; with fewer
rounds it has not returned yet. With `Timeout` 50ms and `Interval` 10ms the time taken is
60ms. -/
theorem C10_get_exhausted (e : Env) (p : ThriftPool) (now : Int)
    (hs : p.status = PoolStatus.Open) (hi : p.idle = [])
    (hfull : p.config.MaxConn ≤ p.count) (hI : 0 < p.config.Interval)
    (hT : 0 ≤ p.config.Timeout) :
    (∀ fuel, (p.config.Timeout / p.config.Interval).toNat + 1 ≤ fuel →
      ∃ out, Get e fuel p now = some out ∧ out.ret = .error Error.ErrOverMax ∧
        out.pool = p ∧
        sleeps out.trace = (p.config.Timeout / p.config.Interval).toNat + 1 ∧
        Event.dial ∉ out.trace ∧ closes out.trace = 0 ∧
        out.now - now = (p.config.Timeout / p.config.Interval + 1) * p.config.Interval ∧
        p.config.Timeout < out.now - now ∧
        out.now - now ≤ p.config.Timeout + p.config.Interval ∧
        (p.config.Timeout = 50000000 → p.config.Interval = 10000000 →
          out.now - now = 60000000)) ∧
    (∀ fuel, fuel ≤ (p.config.Timeout / p.config.Interval).toNat →
      Get e fuel p now = none) := by
  have hov : overMax p = true := by simp [overMax, hi, hfull]
  have hq : 0 ≤ p.config.Timeout / p.config.Interval := Int.ediv_nonneg hT (le_of_lt hI)
  have hm : (((p.config.Timeout / p.config.Interval).toNat : Nat) : Int)
      = p.config.Timeout / p.config.Interval := Int.toNat_of_nonneg hq
  have hlo : p.config.Timeout / p.config.Interval * p.config.Interval ≤ p.config.Timeout :=
    Int.ediv_mul_le _ (ne_of_gt hI)
  have hhi : p.config.Timeout
      < (p.config.Timeout / p.config.Interval + 1) * p.config.Interval :=
    Int.lt_ediv_add_one_mul_self _ hI
  have hsplit : (p.config.Timeout / p.config.Interval + 1) * p.config.Interval
      = p.config.Timeout / p.config.Interval * p.config.Interval + p.config.Interval := by
    ring
  have hne : ¬ p.status = PoolStatus.Stoped := by rw [hs]; simp
  constructor
  · intro fuel hf
    obtain ⟨w, hw, ht, hnow, hsl, hdl⟩ :=
      waitLoop_timeout p (now + p.config.Timeout) hov hI
        (p.config.Timeout / p.config.Interval).toNat fuel now hf
        (by rw [hm]; omega) (by rw [hm]; omega)
    obtain ⟨hcl, _, _, _⟩ := waitLoop_spec _ _ _ _ _ hw
    rw [hm] at hnow
    refine ⟨⟨.error Error.ErrOverMax, p, w.now, Event.lock :: Event.unlock :: w.trace⟩, ?_,
      rfl, rfl, ?_, ?_, ?_, ?_, ?_, ?_, ?_⟩
    · simp only [Get, get, if_neg hne, hov, if_true, hw, ht]
    · simpa [sleeps] using hsl
    · simp [hdl]
    · simpa using hcl
    · simp only [hnow]; omega
    · simp only [hnow]; omega
    · simp only [hnow]; omega
    · intro h50 h10
      simp only [hnow, h50, h10]
      norm_num
  · intro fuel hf
    have hle : (fuel : Int) * p.config.Interval
        ≤ p.config.Timeout / p.config.Interval * p.config.Interval := by
      apply mul_le_mul_of_nonneg_right _ (le_of_lt hI)
      rw [← hm]
      exact_mod_cast hf
    have hw := waitLoop_running p (now + p.config.Timeout) hov hI fuel now (by omega)
    simp only [Get, get, if_neg hne, hov, if_true, hw]

theorem C10_get_exhausted_witness :
    fullPool.status = PoolStatus.Open ∧ fullPool.idle = [] ∧
    fullPool.config.MaxConn ≤ fullPool.count ∧ 0 < fullPool.config.Interval ∧
    0 ≤ fullPool.config.Timeout ∧
    (∃ out, Get envOff 6 fullPool 0 = some out ∧ out.ret = .error Error.ErrOverMax ∧
      out.pool = fullPool ∧ sleeps out.trace = 6 ∧ out.now - 0 = 60000000) ∧
    Get envOff 5 fullPool 0 = none := by
  have h := C10_get_exhausted envOff fullPool 0 rfl rfl (by decide) (by decide) (by decide)
  refine ⟨rfl, rfl, by decide, by decide, by decide, ?_, h.2 5 (by decide)⟩
  obtain ⟨out, h1, h2, h3, h4, _, _, _, _, _, h5⟩ := h.1 6 (by decide)
  exact ⟨out, h1, h2, h3, h4, h5 rfl rfl⟩

/-! ## Invariants over sequences of operations -/

/-- C1, evaluated where the code breaks it: with `MaxConn = 1`, a caller borrows a handle with
`Get`, the pool is stopped (`Release` sets the counter to 0 although the handle is still out)
and resumed, and the caller, who still holds the handle, puts it back. When the handle is dead
by then, `Put` subtracts one and the counter is -1; when it is alive, `Put` places it in the
idle queue and the next eviction subtracts one: the counter is -1 again. -/
theorem C1_count_negative_after_resume :
    1 ≤ cfg1.MaxConn ∧
    Option.map Sys.count (run false (Sys.init cfg1 0) staleDeadPut) = some (-1) ∧
    Option.map Sys.count (run false (Sys.init cfg1 0) staleAlivePutEvict) = some (-1) := by
  decide

/-- Where the capacity bound does hold: for a pool built with `MaxConn ≥ 1`, in every state
reached by a run under the strict discipline (no handle from before a `Release` comes back
except through `Put` on the stopped pool), `0 ≤ count ≤ MaxConn`. -/
theorem capacity_strict (cfg : ThriftPoolConfig) (now : Int) (ops : List Op) (s : Sys)
    (hmax : 1 ≤ cfg.MaxConn) (h : run true (Sys.init cfg now) ops = some s) :
    s.pool.config = cfg ∧ 0 ≤ s.pool.count ∧ s.pool.count ≤ cfg.MaxConn := by
  have h0 : 0 ≤ cfg.MaxConn := by
    rw [Int32.le_iff] at hmax ⊢
    rw [Int32.val_zero]
    rw [Int32.val_one] at hmax
    omega
  have hI := run_Inv cfg ops _ s (init_Inv cfg now) h
  have hW := run_Weak cfg h0 ops _ s (init_Inv cfg now) (init_Weak cfg h0 now) h
  refine ⟨hW.config, ?_, hW.cap⟩
  have := hI.count
  rw [Int32.le_iff, Int32.val_zero]
  omega

/-- C2, evaluated where the code breaks it: a caller borrows a handle, the pool is stopped, and
the caller gives the handle to `CloseConn`; the pool is then stopped with an empty idle queue
and the counter at -1, not 0. -/
theorem C2_closeConn_while_stopped :
    Option.map Sys.view (run false (Sys.init cfg1 0) staleCloseConn)
      = some (PoolStatus.Stoped, [], -1) := by
  decide

/-- C3, evaluated where the code breaks it: a caller borrows a handle, the pool is stopped
(`Release` sets the counter to 0 although the handle is still out) and resumed, and the caller
puts the handle back alive; the idle queue then has one entry while the counter is 0. -/
theorem C3_idle_uncounted_after_resume :
    Option.map Sys.view (run false (Sys.init cfg1 0) staleAlivePut)
      = some (PoolStatus.Open, [{ id := 7, t := 0 }], 0) := by
  decide

/-- Where the idle queue is counted: in every state reached by a run under the strict
discipline, the idle queue is no longer than `count`, and every idle handle carries a time `t`
that a `Put` stamped, not after the clock. -/
theorem idle_counted_strict (cfg : ThriftPoolConfig) (now : Int) (ops : List Op) (s : Sys)
    (h : run true (Sys.init cfg now) ops = some s) :
    (s.pool.idle.length : Int) ≤ s.pool.count ∧
    ∀ c ∈ s.pool.idle, c.t ∈ s.stamps ∧ c.t ≤ s.now := by
  have hI := run_Inv cfg ops _ s (init_Inv cfg now) h
  refine ⟨?_, hI.stamped⟩
  have := hI.count
  omega

/-- C4, as stated, fails, in two ways. A handle that died while idle is taken off the counter
by `Get` without being closed: the counter is 0 with one handle dialed and none closed. And
`Release` sets the counter to 0 while a borrowed handle is still open. (Each tuple is the
counter, the handles dialed, closed, dropped without a close, and borrowed before the last
`Release`.) -/
theorem C4_counterexample :
    Option.map Sys.books (run true (Sys.init cfg1 0) deadIdleGet) = some (0, 1, 0, 1, 0) ∧
    Option.map Sys.books (run true (Sys.init cfg1 0) borrowThenRelease)
      = some (0, 1, 0, 0, 1) := by
  decide

/-- C4, amended: in every state reached by a sequence of calls in which callers pass only
handles they hold, and a handle borrowed before a `Release` is afterwards passed only to `Put`
and only while the pool is stopped, `count` is the number of handles idle or borrowed since
the last `Release`; and the handles dialed are those counted, those closed, those dropped
without a close after a failed liveness check, and those borrowed before the last `Release`
and not yet given back. -/
theorem C4_counter_meaning (cfg : ThriftPoolConfig) (now : Int) (ops : List Op) (s : Sys)
    (h : run true (Sys.init cfg now) ops = some s) :
    s.pool.count = (s.pool.idle.length : Int) + (s.held.length : Int) ∧
    (s.dialed : Int) = s.pool.count + s.closed + s.dropped + s.stale.length := by
  have hI := run_Inv cfg ops _ s (init_Inv cfg now) h
  have h1 := hI.count
  have h2 := hI.ledger
  refine ⟨h1, ?_⟩
  omega

theorem C4_counter_meaning_witness :
    run true (Sys.init cfg1 0) orderlyRun = some orderlyEnd ∧
    orderlyEnd.pool.count
      = (orderlyEnd.pool.idle.length : Int) + (orderlyEnd.held.length : Int) ∧
    (orderlyEnd.dialed : Int)
      = orderlyEnd.pool.count + orderlyEnd.closed + orderlyEnd.dropped
        + orderlyEnd.stale.length :=
  ⟨by decide, C4_counter_meaning cfg1 0 orderlyRun orderlyEnd (by decide)⟩

/-! ## Errors of acquire, and release -/

/-- C11, as stated, fails: on an open pool with a 50ms timeout, `Get` at clock 8 meets a dead
idle handle and returns `ErrSocketDisconnect` at clock 8, before the deadline, without a sleep
or a second attempt; and on the new pool a failed dial is returned at clock 8 after that one
dial. -/
theorem C11_counterexample :
    idlePool.status = PoolStatus.Open ∧
    Get (envDown 9) 3 idlePool 8
      = some ⟨.error Error.ErrSocketDisconnect, { idlePool with idle := [], count := 0 }, 8,
          [Event.lock, Event.unlock]⟩ ∧
    (8 : Int) < 8 + idlePool.config.Timeout ∧
    Get envOff 3 (newPool cfg1) 8
      = some ⟨.error (Error.net 111), newPool cfg1, 8,
          [Event.lock, Event.unlock, Event.dial]⟩ :=
  ⟨rfl, rfl, by decide, rfl⟩

/-- C11, amended: on an open pool that has an idle handle or room for a new one, `Get` runs no
round of its retry loop, whatever the deadline: it returns with the clock unchanged, without a
sleep and with at most one dial, for any fuel. A dead idle handle is surfaced at once as
`ErrSocketDisconnect` (nothing is dialed), a failed dial at once as the dial error, a dead new
handle at once as `ErrSocketDisconnect`. -/
theorem C11_errors_surface_at_once (e : Env) (fuel : Nat) (p : ThriftPool) (now : Int)
    (hs : p.status = PoolStatus.Open)
    (hfree : p.idle ≠ [] ∨ p.count < p.config.MaxConn) :
    ∃ out, Get e fuel p now = some out ∧ out.now = now ∧ sleeps out.trace = 0 ∧
      dialEvents out.trace ≤ 1 ∧
      (∀ c rest, p.idle = c :: rest → Check e c = false →
        out.ret = .error Error.ErrSocketDisconnect ∧ dialEvents out.trace = 0) ∧
      (∀ err, p.idle = [] → e.dial = .error err →
        out.ret = .error err ∧ dialEvents out.trace = 1) ∧
      (∀ i, p.idle = [] → e.dial = .ok i → Check e { id := i, t := 0 } = false →
        out.ret = .error Error.ErrSocketDisconnect ∧ dialEvents out.trace = 1) := by
  have hne : ¬ p.status = PoolStatus.Stoped := by rw [hs]; simp
  have hov : overMax p = false := by
    rcases hfree with h | h
    · cases hi : p.idle with
      | nil => exact absurd hi h
      | cons c rest => simp [overMax, hi]
    · have h2 : ¬ p.config.MaxConn ≤ p.count := (Int32.not_le _ _).mpr h
      simp [overMax, h2]
  refine ⟨getLocked e p now [Event.lock], ?_, ?_⟩
  · simp [Get, get, hne, hov]
  · unfold getLocked
    cases hi : p.idle with
    | nil =>
      cases hd : e.dial with
      | error err => simp [NewConn, hd, sleeps, dialEvents]
      | ok i =>
        by_cases hc : Check e { id := i, t := 0 } <;>
          simp [NewConn, hd, hc, sleeps, dialEvents]
    | cons c rest =>
      by_cases hc : Check e c <;> simp [hc, sleeps, dialEvents]

theorem C11_errors_surface_at_once_witness :
    idlePool.status = PoolStatus.Open ∧
    (idlePool.idle ≠ [] ∨ idlePool.count < idlePool.config.MaxConn) ∧
    ∃ out, Get (envDown 9) 0 idlePool 8 = some out ∧ out.now = 8 ∧ sleeps out.trace = 0 ∧
      out.ret = .error Error.ErrSocketDisconnect ∧ dialEvents out.trace = 0 := by
  obtain ⟨out, h1, h2, h3, _, h5, _, _⟩ :=
    C11_errors_surface_at_once (envDown 9) 0 idlePool 8 rfl (Or.inl (by decide))
  exact ⟨rfl, Or.inl (by decide), out, h1, h2, h3, h5 _ [] rfl rfl⟩

/-- C12: on an open pool with `count ≤ MaxConn`, `Put` of an alive handle `c` returns nil, and
the pool afterwards differs only in its idle queue, which is `c` with `t` set to the current
time followed by the previous entries in their previous order. -/
theorem C12_put_alive (e : Env) (p : ThriftPool) (now : Int) (c : Conn)
    (hs : p.status = PoolStatus.Open) (hcap : p.count ≤ p.config.MaxConn)
    (hc : Check e c = true) :
    Put e p now (some c)
      = ⟨none, { p with idle := { c with t := now } :: p.idle }, now,
          [Event.lock, Event.unlock]⟩ := by
  have h2 : ¬ p.config.MaxConn < p.count := (Int32.not_lt _ _).mpr hcap
  simp [Put, hs, hc, h2]

theorem C12_put_alive_witness :
    fullPool.status = PoolStatus.Open ∧ fullPool.count ≤ fullPool.config.MaxConn ∧
    Check (envUp 0) h7 = true ∧
    Put (envUp 0) fullPool 5 (some h7)
      = ⟨none, { fullPool with idle := { h7 with t := 5 } :: fullPool.idle }, 5,
          [Event.lock, Event.unlock]⟩ :=
  ⟨rfl, by decide, rfl, C12_put_alive (envUp 0) fullPool 5 h7 rfl (by decide) rfl⟩

/-- C13, as stated, fails at the minimum of `int32`: on the open pool `minPool`, whose counter
is `-2147483648`, `Put` of a dead handle and `CloseConn` both leave the counter at
`2147483647`, not one less. -/
theorem C13_counterexample :
    minPool.status = PoolStatus.Open ∧ Check (envDown 0) h7 = false ∧
    minPool.count.val = -2147483648 ∧
    (Put (envDown 0) minPool 5 (some h7)).pool.count.val = 2147483647 ∧
    (CloseConn minPool 5 (some h7)).pool.count.val = 2147483647 := by
  decide

/-- C13, amended: on an open pool, when `count > MaxConn` or the handle `c` is dead, `Put` of
`c` closes `c` exactly once (its only event), leaves the counter at the old counter minus one
in `int32` arithmetic and changes nothing else of the pool, the idle queue included;
`CloseConn` of `c` does the same. The counter goes down by exactly one whenever it is above
the minimum of `int32` (as it is when `count > MaxConn`); at the minimum it wraps around to
`2147483647`. -/
theorem C13_put_discards (e : Env) (p : ThriftPool) (now : Int) (c : Conn)
    (hs : p.status = PoolStatus.Open)
    (h : p.config.MaxConn < p.count ∨ Check e c = false) :
    (Put e p now (some c)).pool = { p with count := p.count - 1 } ∧
    (Put e p now (some c)).trace = [Event.close c] ∧
    closedConns (Put e p now (some c)).trace = [c] ∧
    (CloseConn p now (some c)).pool = { p with count := p.count - 1 } ∧
    (CloseConn p now (some c)).trace = [Event.close c] ∧
    closedConns (CloseConn p now (some c)).trace = [c] ∧
    (-2147483648 < p.count.val → (p.count - 1).val = p.count.val - 1) ∧
    (p.config.MaxConn < p.count → (p.count - 1).val = p.count.val - 1) ∧
    (p.count.val = -2147483648 → (p.count - 1).val = 2147483647) := by
  have hb : (decide (p.count > p.config.MaxConn) || !Check e c) = true := by
    rcases h with h | h
    · simp [h]
    · simp [h]
  have hlo := p.count.lo
  have hhi := p.count.hi
  have hm := p.config.MaxConn.lo
  refine ⟨?_, ?_, ?_, ?_, ?_, ?_, ?_, ?_, ?_⟩
  · simp only [Put, hs, hb]
    simp [Int32.sub_one]
  · simp only [Put, hs, hb]
    simp
  · simp only [Put, hs, hb]
    simp [closedConns]
  · simp [CloseConn, Int32.sub_one]
  · simp [CloseConn]
  · simp [CloseConn, closedConns]
  · intro h1
    rw [Int32.sub_one, AddInt32_val]
    omega
  · intro h1
    rw [Int32.lt_iff] at h1
    rw [Int32.sub_one, AddInt32_val]
    omega
  · intro h1
    rw [Int32.sub_one, AddInt32_val]
    omega

theorem C13_put_discards_witness :
    overPool.status = PoolStatus.Open ∧
    (overPool.config.MaxConn < overPool.count ∨ Check (envUp 0) h7 = false) ∧
    (Put (envUp 0) overPool 5 (some h7)).pool = { overPool with count := overPool.count - 1 } ∧
    (Put (envUp 0) overPool 5 (some h7)).trace = [Event.close h7] ∧
    closedConns (Put (envUp 0) overPool 5 (some h7)).trace = [h7] ∧
    (CloseConn overPool 5 (some h7)).pool = { overPool with count := overPool.count - 1 } ∧
    (CloseConn overPool 5 (some h7)).trace = [Event.close h7] ∧
    closedConns (CloseConn overPool 5 (some h7)).trace = [h7] ∧
    (overPool.count - 1).val = overPool.count.val - 1 :=
  ⟨rfl, Or.inl (by decide),
    (C13_put_discards (envUp 0) overPool 5 h7 rfl (Or.inl (by decide))).1,
    (C13_put_discards (envUp 0) overPool 5 h7 rfl (Or.inl (by decide))).2.1,
    (C13_put_discards (envUp 0) overPool 5 h7 rfl (Or.inl (by decide))).2.2.1,
    (C13_put_discards (envUp 0) overPool 5 h7 rfl (Or.inl (by decide))).2.2.2.1,
    (C13_put_discards (envUp 0) overPool 5 h7 rfl (Or.inl (by decide))).2.2.2.2.1,
    (C13_put_discards (envUp 0) overPool 5 h7 rfl (Or.inl (by decide))).2.2.2.2.2.1,
    (C13_put_discards (envUp 0) overPool 5 h7 rfl (Or.inl (by decide))).2.2.2.2.2.2.1
      (by decide)⟩

/-- C14: on a stopped pool, `Put` of a handle `c`, alive or dead, closes `c` (its only event)
and leaves the pool as it was: `c` is not placed in the idle queue, which stays empty when it
was, and the counter is not adjusted. -/
theorem C14_put_stopped (e : Env) (p : ThriftPool) (now : Int) (c : Conn)
    (hs : p.status = PoolStatus.Stoped) :
    (Put e p now (some c)).pool = p ∧
    (Put e p now (some c)).trace = [Event.close c] ∧
    closedConns (Put e p now (some c)).trace = [c] ∧
    (p.idle = [] → (Put e p now (some c)).pool.idle = []) ∧
    (Put e p now (some c)).pool.count = p.count := by
  simp [Put, hs, closedConns]

theorem C14_put_stopped_witness :
    stoppedPool.status = PoolStatus.Stoped ∧
    (Put (envDown 0) stoppedPool 5 (some h7)).pool = stoppedPool ∧
    (Put (envDown 0) stoppedPool 5 (some h7)).trace = [Event.close h7] ∧
    closedConns (Put (envDown 0) stoppedPool 5 (some h7)).trace = [h7] ∧
    (stoppedPool.idle = [] → (Put (envDown 0) stoppedPool 5 (some h7)).pool.idle = []) ∧
    (Put (envDown 0) stoppedPool 5 (some h7)).pool.count = stoppedPool.count :=
  ⟨rfl, C14_put_stopped (envDown 0) stoppedPool 5 h7 rfl⟩

/-- C15, as stated, fails: on the stopped pool, and on an open pool with a dead handle, `Put`
of a handle whose `Close` fails returns that error to its caller. -/
theorem C15_counterexample :
    (Put envCloseErr stoppedPool 5 (some h7)).ret = some (Error.other 5) ∧
    (Put envCloseErr fullPool 5 (some h7)).ret = some (Error.other 5) :=
  ⟨rfl, rfl⟩

/-- C15, amended: `Put` returns nil when the handle is nil or is placed in the idle queue; in
every other case (pool stopped, `count > MaxConn`, or handle dead) it closes the handle and
returns exactly what `Close` returned, so a failure of `Close` is returned to the caller of
`Put`. -/
theorem C15_put_result (e : Env) (p : ThriftPool) (now : Int) (c : Conn) :
    (Put e p now none).ret = none ∧
    (Put e p now (some c)).ret
      = (if p.status = PoolStatus.Stoped ∨ p.config.MaxConn < p.count ∨ Check e c = false
          then e.Close c else none) := by
  refine ⟨rfl, ?_⟩
  rcases status_cases p with hs | hs
  · simp [Put, hs]
  · by_cases h1 : p.config.MaxConn < p.count
    · simp [Put, hs, h1]
    · by_cases h2 : Check e c = true
      · simp [Put, hs, h1, h2]
      · simp [Put, hs, h1, h2]

/-! ## Stop, resume, replace, evict -/

theorem closedConns_map_close (l : List Conn) : closedConns (l.map Event.close) = l := by
  induction l with
  | nil => rfl
  | cons v rest ih => simp [closedConns, ih]

/-- C16: for every pool, `Release` sets the status to stopped, the counter to 0 and the idle
queue to empty, changes nothing else, and its events are a lock, an unlock and then one close
for each handle that was idle, front to back: each of them is closed once, no other handle is
closed, and nothing is dialed. -/
theorem C16_release (p : ThriftPool) (now : Int) :
    (Release p now).pool
      = { p with status := PoolStatus.Stoped, count := 0, idle := [] } ∧
    (Release p now).trace = Event.lock :: Event.unlock :: p.idle.map Event.close ∧
    closedConns (Release p now).trace = p.idle ∧
    closes (Release p now).trace = p.idle.length ∧
    dialEvents (Release p now).trace = 0 := by
  refine ⟨rfl, rfl, ?_, ?_, ?_⟩
  · simp [Release, closedConns, closedConns_map_close]
  · simp [Release, closes_map_close]
  · simp only [Release, dialEvents]
    induction p.idle with
    | nil => rfl
    | cons v rest ih => simpa [dialEvents] using ih

/-- C17: for every pool, a second `Release` right after a first leaves the pool that the first
one left (status stopped, counter 0, idle queue empty), and its only events are a lock and an
unlock: it closes no handle. -/
theorem C17_release_twice (p : ThriftPool) (now now2 : Int) :
    (Release (Release p now).pool now2).pool = (Release p now).pool ∧
    (Release (Release p now).pool now2).pool.status = PoolStatus.Stoped ∧
    (Release (Release p now).pool now2).pool.count = 0 ∧
    (Release (Release p now).pool now2).pool.idle = [] ∧
    (Release (Release p now).pool now2).trace = [Event.lock, Event.unlock] ∧
    closedConns (Release (Release p now).pool now2).trace = [] :=
  ⟨rfl, rfl, rfl, rfl, rfl, rfl⟩

/-- C18: for every pool, `Release` followed by `Recover` yields the pool with status open, an
empty idle queue and the counter at 0 (`Recover` on its own only sets the status); no handle
is put back into the idle queue, so with `MaxConn ≥ 1` the next `Get` locks, unlocks and
dials, and when that dial yields an alive handle it returns it and the counter is 1. On an
open pool `Client.HardClose` and then `Client.Open` are that `Release` and that `Recover`,
both without error. -/
theorem C18_release_recover (e : Env) (fuel : Nat) (p : ThriftPool) (now now2 : Int) :
    Recover (Release p now).pool
      = { p with status := PoolStatus.Open, count := 0, idle := [] } ∧
    (∀ q : ThriftPool, Recover q = { q with status := PoolStatus.Open }) ∧
    (1 ≤ p.config.MaxConn →
      ∃ out, Get e fuel (Recover (Release p now).pool) now2 = some out ∧
        out.trace = [Event.lock, Event.unlock, Event.dial] ∧ out.now = now2 ∧
        (∀ i, e.dial = .ok i → Check e { id := i, t := 0 } = true →
          out.ret = .ok { id := i, t := 0 } ∧ out.pool.count = 1 ∧ out.pool.idle = [])) ∧
    (IsOpen p = true →
      Client.HardClose { pool := some p } now
        = (none, { pool := some (Release p now).pool }, (Release p now).trace) ∧
      Client.Open { pool := some (Release p now).pool }
        = (none, { pool := some (Recover (Release p now).pool) })) := by
  refine ⟨rfl, fun _ => rfl, ?_, ?_⟩
  · intro hmax
    have hlt : ¬ p.config.MaxConn ≤ 0 := by
      rw [Int32.le_iff, Int32.val_one] at hmax
      rw [Int32.le_iff, Int32.val_zero]
      omega
    refine ⟨getLocked e (Recover (Release p now).pool) now2 [Event.lock], ?_, ?_⟩
    · simp [Get, get, Recover, Release, overMax, hlt]
    · unfold getLocked
      cases hd : e.dial with
      | error err => simp [Recover, Release, NewConn, hd]
      | ok i =>
        by_cases hc : Check e { id := i, t := 0 } <;>
          simp [Recover, Release, NewConn, hd, hc, AddInt32_zero_one]
  · intro ho
    have hns : ¬ p.status = PoolStatus.Stoped := by simpa [IsOpen] using ho
    simp [Client.HardClose, Client.Open, IsOpen, Release, hns]

theorem C18_release_recover_witness :
    1 ≤ idlePool.config.MaxConn ∧ IsOpen idlePool = true ∧
    (envUp 8).dial = .ok 8 ∧ Check (envUp 8) { id := 8, t := 0 } = true ∧
    Recover (Release idlePool 9).pool
      = { idlePool with status := PoolStatus.Open, count := 0, idle := [] } ∧
    (∃ out, Get (envUp 8) 0 (Recover (Release idlePool 9).pool) 10 = some out ∧
      out.trace = [Event.lock, Event.unlock, Event.dial] ∧
      out.ret = .ok { id := 8, t := 0 } ∧ out.pool.count = 1 ∧ out.pool.idle = []) ∧
    Client.HardClose { pool := some idlePool } 9
      = (none, { pool := some (Release idlePool 9).pool }, (Release idlePool 9).trace) ∧
    Client.Open { pool := some (Release idlePool 9).pool }
      = (none, { pool := some (Recover (Release idlePool 9).pool) }) := by
  have h := C18_release_recover (envUp 8) 0 idlePool 9 10
  obtain ⟨out, h1, h2, _, h4⟩ := h.2.2.1 (by decide)
  exact ⟨by decide, rfl, rfl, rfl, h.1, ⟨out, h1, h2, h4 8 rfl rfl⟩, h.2.2.2 rfl⟩

/-- C19, as stated, fails at the minimum of `int32`: on `minPool`, whose counter is
`-2147483648`, `Reconnect` with a failing dial, and `Reconnect` with a dead new handle, leave
the counter at `2147483647`, not one less. -/
theorem C19_counterexample :
    minPool.count.val = -2147483648 ∧ envOff.dial = .error (Error.net 111) ∧
    (Reconnect envOff minPool 5 (some h7)).pool.count.val = 2147483647 ∧
    (envDown 8).dial = .ok 8 ∧ Check (envDown 8) { id := 8, t := 0 } = false ∧
    (Reconnect (envDown 8) minPool 5 (some h7)).pool.count.val = 2147483647 :=
  ⟨by decide, rfl, by decide, rfl, rfl, by decide⟩

/-- C19, amended: for every pool and handle `h`, `Reconnect` of `h` closes `h` and then dials
once. When the dial yields an alive handle it returns that handle and the pool is unchanged;
when the dial fails it returns the dial error, and when the new handle is dead it returns
`ErrSocketDisconnect`, and in both cases the pool differs only in the counter, which is the old
counter minus one in `int32` arithmetic: exactly one less whenever the counter is above the
minimum of `int32`, and `2147483647` at the minimum. The idle queue is never modified. The value
returned and the counter afterwards are those of the creation step of `get` run on the pool
with one taken off the counter. -/
theorem C19_reconnect (e : Env) (p : ThriftPool) (now : Int) (h : Conn) :
    (∀ i, e.dial = .ok i → Check e { id := i, t := 0 } = true →
      Reconnect e p now (some h)
        = ⟨.ok { id := i, t := 0 }, p, now, [Event.close h, Event.dial]⟩) ∧
    (∀ err, e.dial = .error err →
      Reconnect e p now (some h)
        = ⟨.error err, { p with count := p.count - 1 }, now, [Event.close h, Event.dial]⟩) ∧
    (∀ i, e.dial = .ok i → Check e { id := i, t := 0 } = false →
      Reconnect e p now (some h)
        = ⟨.error Error.ErrSocketDisconnect, { p with count := p.count - 1 }, now,
            [Event.close h, Event.dial]⟩) ∧
    (Reconnect e p now (some h)).pool.idle = p.idle ∧
    closedConns (Reconnect e p now (some h)).trace = [h] ∧
    dialEvents (Reconnect e p now (some h)).trace = 1 ∧
    (Reconnect e p now (some h)).ret
      = (getLocked e { p with idle := [], count := p.count - 1 } now []).ret ∧
    (Reconnect e p now (some h)).pool.count
      = (getLocked e { p with idle := [], count := p.count - 1 } now []).pool.count ∧
    (-2147483648 < p.count.val → (p.count - 1).val = p.count.val - 1) ∧
    (p.count.val = -2147483648 → (p.count - 1).val = 2147483647) := by
  have hlo := p.count.lo
  have hhi := p.count.hi
  have h9 : -2147483648 < p.count.val → (p.count - 1).val = p.count.val - 1 := by
    intro h1
    rw [Int32.sub_one, AddInt32_val]
    omega
  have h10 : p.count.val = -2147483648 → (p.count - 1).val = 2147483647 := by
    intro h1
    rw [Int32.sub_one, AddInt32_val]
    omega
  have hrest : (Reconnect e p now (some h)).pool.idle = p.idle ∧
      closedConns (Reconnect e p now (some h)).trace = [h] ∧
      dialEvents (Reconnect e p now (some h)).trace = 1 ∧
      (Reconnect e p now (some h)).ret
        = (getLocked e { p with idle := [], count := p.count - 1 } now []).ret ∧
      (Reconnect e p now (some h)).pool.count
        = (getLocked e { p with idle := [], count := p.count - 1 } now []).pool.count := by
    unfold Reconnect getLocked
    cases hd : e.dial with
    | error err =>
      simp [NewConn, hd, closedConns, dialEvents, Int32.sub_one, AddInt32_one_neg_one]
    | ok i =>
      by_cases hc : Check e { id := i, t := 0 } <;>
        simp [NewConn, hd, hc, closedConns, dialEvents, Int32.sub_one, AddInt32_one_neg_one,
          AddInt32_neg_one_one]
  refine ⟨?_, ?_, ?_, hrest.1, hrest.2.1, hrest.2.2.1, hrest.2.2.2.1, hrest.2.2.2.2, h9, h10⟩
  · intro i hd hc
    simp [Reconnect, NewConn, hd, hc]
  · intro err hd
    simp [Reconnect, NewConn, hd, Int32.sub_one]
  · intro i hd hc
    simp [Reconnect, NewConn, hd, hc, Int32.sub_one]

theorem C19_reconnect_witness :
    (envUp 8).dial = .ok 8 ∧ Check (envUp 8) { id := 8, t := 0 } = true ∧
    Reconnect (envUp 8) fullPool 5 (some h7)
      = ⟨.ok { id := 8, t := 0 }, fullPool, 5, [Event.close h7, Event.dial]⟩ ∧
    envOff.dial = .error (Error.net 111) ∧
    Reconnect envOff fullPool 5 (some h7)
      = ⟨.error (Error.net 111), { fullPool with count := fullPool.count - 1 }, 5,
          [Event.close h7, Event.dial]⟩ ∧
    (envDown 8).dial = .ok 8 ∧ Check (envDown 8) { id := 8, t := 0 } = false ∧
    Reconnect (envDown 8) fullPool 5 (some h7)
      = ⟨.error Error.ErrSocketDisconnect, { fullPool with count := fullPool.count - 1 }, 5,
          [Event.close h7, Event.dial]⟩ ∧
    -2147483648 < fullPool.count.val ∧
    (fullPool.count - 1).val = fullPool.count.val - 1 :=
  ⟨rfl, rfl, (C19_reconnect (envUp 8) fullPool 5 h7).1 8 rfl rfl,
    rfl, (C19_reconnect envOff fullPool 5 h7).2.1 _ rfl,
    rfl, rfl, (C19_reconnect (envDown 8) fullPool 5 h7).2.2.1 8 rfl rfl,
    by decide, (C19_reconnect (envDown 8) fullPool 5 h7).2.2.2.2.2.2.2.2.1 (by decide)⟩

/-- The loop of `CheckTimeout` removes the longest run of expired entries at the back: on the
queue read back first it is `dropWhile` / `takeWhile` of `expired`. -/
theorem evict_eq (d now : Int) (l : List Conn) :
    evict d now l = (l.dropWhile (expired d now), l.takeWhile (expired d now)) := by
  induction l with
  | nil => rfl
  | cons v rest ih =>
    unfold evict
    by_cases h : v.t + d > now
    · have hx : expired d now v = false := by
        simp only [expired, decide_eq_false_iff_not]
        omega
      simp [h, List.dropWhile, List.takeWhile, hx]
    · have hx : expired d now v = true := by
        simp only [expired, decide_eq_true_eq]
        omega
      simp [h, List.dropWhile, List.takeWhile, hx, ih]

theorem closedConns_append (a b : List Event) :
    closedConns (a ++ b) = closedConns a ++ closedConns b := by
  induction a with
  | nil => rfl
  | cons x xs ih => cases x <;> simp [closedConns, ih]

theorem closedConns_evictEvents (l : List Conn) :
    closedConns ((l.map evictEvents).flatten) = l := by
  induction l with
  | nil => rfl
  | cons v rest ih =>
    simp only [List.map_cons, List.flatten_cons, closedConns_append, ih]
    simp [evictEvents, closedConns]

theorem dialEvents_append (a b : List Event) :
    dialEvents (a ++ b) = dialEvents a + dialEvents b := by
  induction a with
  | nil => simp [dialEvents]
  | cons x xs ih =>
    cases x <;> simp [dialEvents, ih]
    omega

theorem dialEvents_evictEvents (l : List Conn) :
    dialEvents ((l.map evictEvents).flatten) = 0 := by
  induction l with
  | nil => rfl
  | cons v rest ih =>
    simp only [List.map_cons, List.flatten_cons, dialEvents_append, ih]
    simp [evictEvents, dialEvents]

/-- C20, as stated, fails at the minimum of `int32`: on `minPool`, whose counter is
`-2147483648`, `CheckTimeout` at clock 50 removes the one expired handle and leaves the counter
at `2147483647`, not one less. -/
theorem C20_counterexample :
    minPool.count.val = -2147483648 ∧
    closedConns (CheckTimeout minPool 50).trace = [{ id := 7, t := 5 }] ∧
    (CheckTimeout minPool 50).pool.idle = [] ∧
    (CheckTimeout minPool 50).pool.count.val = 2147483647 := by
  decide

/-- C20, amended: for every pool and clock `now`, `CheckTimeout` removes from the back of the
idle queue exactly the longest run of entries with `t + IdleTimeout ≤ now`: the handles it
closes are that run, from the back, each closed once; the entries that stay are the others, in
their order, and the last of them, if any, has `t + IdleTimeout > now` (entries in front of it
stay even when expired, as the front entry of `mixedPool` at clock 50 does); the counter is the
old counter minus the number of handles removed in `int32` arithmetic, which is exactly that
many less whenever the difference is not below the minimum of `int32`; the status is unchanged
and nothing is dialed. -/
theorem C20_checkTimeout (p : ThriftPool) (now : Int) :
    (CheckTimeout p now).pool
      = { p with
          idle := (p.idle.reverse.dropWhile (expired p.config.IdleTimeout now)).reverse,
          count := AddInt32 p.count
            (-((p.idle.reverse.takeWhile (expired p.config.IdleTimeout now)).length : Int)) } ∧
    closedConns (CheckTimeout p now).trace
      = p.idle.reverse.takeWhile (expired p.config.IdleTimeout now) ∧
    (CheckTimeout p now).pool.idle ++ (closedConns (CheckTimeout p now).trace).reverse
      = p.idle ∧
    (∀ c ∈ closedConns (CheckTimeout p now).trace, c.t + p.config.IdleTimeout ≤ now) ∧
    (∀ c, (CheckTimeout p now).pool.idle.getLast? = some c →
      now < c.t + p.config.IdleTimeout) ∧
    (CheckTimeout p now).pool.count
      = AddInt32 p.count (-((closedConns (CheckTimeout p now).trace).length : Int)) ∧
    (-2147483648 ≤ p.count.val - ((closedConns (CheckTimeout p now).trace).length : Int) →
      (CheckTimeout p now).pool.count.val
        = p.count.val - ((closedConns (CheckTimeout p now).trace).length : Int)) ∧
    closes (CheckTimeout p now).trace = (closedConns (CheckTimeout p now).trace).length ∧
    (CheckTimeout p now).pool.status = p.status ∧
    dialEvents (CheckTimeout p now).trace = 0 ∧
    (CheckTimeout mixedPool 50).pool.idle = [{ id := 1, t := 0 }, { id := 2, t := 100 }] ∧
    closedConns (CheckTimeout mixedPool 50).trace
      = [{ id := 4, t := 10 }, { id := 3, t := 20 }] ∧
    expired mixedPool.config.IdleTimeout 50 { id := 1, t := 0 } = true := by
  have hcl : closedConns (CheckTimeout p now).trace
      = p.idle.reverse.takeWhile (expired p.config.IdleTimeout now) := by
    simp [CheckTimeout, evict_eq, closedConns, closedConns_append, closedConns_evictEvents]
  have hpool : (CheckTimeout p now).pool
      = { p with
          idle := (p.idle.reverse.dropWhile (expired p.config.IdleTimeout now)).reverse,
          count := AddInt32 p.count
            (-((p.idle.reverse.takeWhile (expired p.config.IdleTimeout now)).length : Int)) } := by
    simp [CheckTimeout, evict_eq, foldl_AddInt32]
  have hcnt : (CheckTimeout p now).pool.count
      = AddInt32 p.count (-((closedConns (CheckTimeout p now).trace).length : Int)) := by
    rw [hcl, hpool]
  refine ⟨hpool, hcl, ?_, ?_, ?_, hcnt, ?_, ?_, rfl, ?_, by decide, by decide, by decide⟩
  · rw [hcl, hpool]
    dsimp only
    rw [← List.reverse_append, List.takeWhile_append_dropWhile, List.reverse_reverse]
  · intro c hc
    rw [hcl] at hc
    have h := List.mem_takeWhile_imp hc
    simpa [expired] using h
  · intro c hc
    rw [hpool] at hc
    simp only [List.getLast?_reverse] at hc
    have h := List.head?_dropWhile_not (expired p.config.IdleTimeout now) p.idle.reverse
    rw [hc] at h
    simp only [expired, decide_eq_false_iff_not] at h
    omega
  · intro h
    have hhi := p.count.hi
    rw [hcnt, AddInt32_val]
    omega
  · rw [hcl]
    simp [CheckTimeout, evict_eq, closes_evictEvents]
  · simp [CheckTimeout, dialEvents, dialEvents_append, dialEvents_evictEvents]

theorem C20_checkTimeout_witness :
    (∀ c ∈ closedConns (CheckTimeout mixedPool 50).trace,
      c.t + mixedPool.config.IdleTimeout ≤ 50) ∧
    (50 : Int) < ({ id := 2, t := 100 } : Conn).t + mixedPool.config.IdleTimeout ∧
    -2147483648
      ≤ mixedPool.count.val - ((closedConns (CheckTimeout mixedPool 50).trace).length : Int) ∧
    (CheckTimeout mixedPool 50).pool.count.val
      = mixedPool.count.val - ((closedConns (CheckTimeout mixedPool 50).trace).length : Int) ∧
    (CheckTimeout mixedPool 50).pool.count = 2 :=
  ⟨(C20_checkTimeout mixedPool 50).2.2.2.1,
    (C20_checkTimeout mixedPool 50).2.2.2.2.1 { id := 2, t := 100 } (by decide),
    by decide,
    (C20_checkTimeout mixedPool 50).2.2.2.2.2.2.1 (by decide),
    by decide⟩

/-! ## The call wrapper `Client.do` -/

/-- C22: when `Get` succeeds with handle `c` and the first invocation of `fn` succeeds or
fails with an error that is neither a `net.Error` nor a `thrift.TTransportException`, `do`
invokes `fn` exactly once, returns what `fn` returned, calls `Reconnect` not at all, and hands
`c` back with `Put`: the pool and the events after `Get` are those of `Put` of `c`. -/
theorem C22_passes_through (eGet eRe ePut : Env) (fuel : Nat) (fn : Nat → Conn → Option Error)
    (p : ThriftPool) (now : Int) (g : Out (Except Error Conn)) (c : Conn)
    (hg : Get eGet fuel p now = some g) (hc : g.ret = .ok c)
    (hfn : fn 0 c = none ∨
      ∃ err, fn 0 c = some err ∧ err.isNet = false ∧ err.isTransport = false) :
    Client.doFn eGet eRe ePut fuel fn p now
      = some ⟨fn 0 c, (Put ePut g.pool g.now (some c)).pool,
          (Put ePut g.pool g.now (some c)).now,
          g.trace ++ (Put ePut g.pool g.now (some c)).trace, [c], 0⟩ := by
  rcases hfn with h | ⟨err, h, h1, h2⟩
  · simp [Client.doFn, hg, hc, h, doDeferred]
  · simp [Client.doFn, hg, hc, h, h1, h2, doDeferred]

theorem C22_passes_through_witness :
    Get (envUp 1) 0 idlePool 10
      = some ⟨.ok { id := 7, t := 5 }, { idlePool with idle := [] }, 10,
          [Event.lock, Event.unlock]⟩ ∧
    fnRemoteErr 0 { id := 7, t := 5 } = some (Error.other 42) ∧
    Option.map DoOut.view (Client.doFn (envUp 1) envOff (envUp 0) 0 fnRemoteErr idlePool 10)
      = some (some (Error.other 42), [{ id := 7, t := 10 }], 1, [], [{ id := 7, t := 5 }]) := by
  have h := C22_passes_through (envUp 1) envOff (envUp 0) 0 fnRemoteErr idlePool 10
    ⟨.ok { id := 7, t := 5 }, { idlePool with idle := [] }, 10, [Event.lock, Event.unlock]⟩
    { id := 7, t := 5 } rfl rfl (Or.inr ⟨Error.other 42, rfl, rfl, rfl⟩)
  refine ⟨rfl, rfl, ?_⟩
  rw [h]
  rfl

/-- C23, as stated, fails on a pool over its cap and on a replacement that dies before it is
put back. On `overPool` (counter 2, cap 1, handle 7 idle) `fn` fails with a `net.Error` on
handle 7, `Reconnect` yields the alive handle 8 and `fn` succeeds on it: `do` returns nil, but
the deferred `Put` closes handle 8, so two handles are closed, the idle queue is empty and the
counter is 1. On `idlePool` (counter 1, cap 1) with handle 8 dead by the time of the deferred
`Put`, the same happens and the counter is 0. -/
theorem C23_counterexample :
    (overPool.status = PoolStatus.Open ∧ overPool.idle = [{ id := 7, t := 5 }] ∧
      overPool.count.val = 2 ∧ overPool.config.MaxConn.val = 1 ∧
      Check (envUp 1) { id := 7, t := 5 } = true ∧
      fnNetOnce 0 { id := 7, t := 5 } = some (Error.net 1) ∧
      Check (envUp 8) { id := 8, t := 0 } = true ∧
      Check (envUp 0) { id := 8, t := 0 } = true ∧
      fnNetOnce 1 { id := 8, t := 0 } = none ∧
      Option.map DoOut.view (Client.doFn (envUp 1) (envUp 8) (envUp 0) 0 fnNetOnce overPool 10)
        = some (none, [], 1, [{ id := 7, t := 5 }, { id := 8, t := 0 }],
            [{ id := 7, t := 5 }, { id := 8, t := 0 }])) ∧
    (idlePool.status = PoolStatus.Open ∧ idlePool.idle = [{ id := 7, t := 5 }] ∧
      idlePool.count.val = 1 ∧ idlePool.config.MaxConn.val = 1 ∧
      Check (envUp 8) { id := 8, t := 0 } = true ∧
      Check (envDown 0) { id := 8, t := 0 } = false ∧
      Option.map DoOut.view
          (Client.doFn (envUp 1) (envUp 8) (envDown 0) 0 fnNetOnce idlePool 10)
        = some (none, [], 0, [{ id := 7, t := 5 }, { id := 8, t := 0 }],
            [{ id := 7, t := 5 }, { id := 8, t := 0 }])) :=
  ⟨⟨rfl, rfl, by decide, by decide, rfl, rfl, rfl, rfl, rfl, by decide⟩,
    ⟨rfl, rfl, by decide, by decide, rfl, rfl, by decide⟩⟩

/-- C23, amended: on an open pool whose idle queue is `c :: rest` with `c` alive, when `fn`
fails on `c` with a `net.Error` or a `thrift.TTransportException`, the dial of `Reconnect`
yields an alive handle and `fn` succeeds on it, `do` returns nil, dials exactly once, calls
`Reconnect` once, invokes `fn` exactly twice (on `c`, then on the new handle) and closes `c`
first. When moreover `count ≤ MaxConn` and the new handle is still alive when the deferred
`Put` checks it, `c` is the only handle closed and the new handle, stamped with the clock, is
at the front of the idle queue before `rest`, with the counter unchanged. Otherwise the
deferred `Put` closes the new handle as well: the idle queue is `rest` and the counter is
decremented once (in `int32` arithmetic). -/
theorem C23_single_retry (eGet eRe ePut : Env) (fuel : Nat) (fn : Nat → Conn → Option Error)
    (p : ThriftPool) (now : Int) (c : Conn) (rest : List Conn) (err : Error) (i : Nat)
    (hs : p.status = PoolStatus.Open)
    (hi : p.idle = c :: rest) (hc : Check eGet c = true)
    (hfn : fn 0 c = some err) (ht : err.isNet = true ∨ err.isTransport = true)
    (hd : eRe.dial = .ok i) (hn : Check eRe { id := i, t := 0 } = true)
    (hfn2 : fn 1 { id := i, t := 0 } = none) :
    ∃ out, Client.doFn eGet eRe ePut fuel fn p now = some out ∧ out.ret = none ∧
      dialEvents out.trace = 1 ∧ (closedConns out.trace).head? = some c ∧
      out.calls = [c, { id := i, t := 0 }] ∧ out.reconnects = 1 ∧
      (p.count ≤ p.config.MaxConn ∧ Check ePut { id := i, t := 0 } = true →
        closedConns out.trace = [c] ∧
        out.pool = { p with idle := { id := i, t := now } :: rest } ∧
        out.pool.count = p.count) ∧
      (p.config.MaxConn < p.count ∨ Check ePut { id := i, t := 0 } = false →
        closedConns out.trace = [c, { id := i, t := 0 }] ∧
        out.pool = { p with idle := rest, count := p.count - 1 }) := by
  have hget : Get eGet fuel p now
      = some ⟨.ok c, { p with idle := rest }, now, [Event.lock, Event.unlock]⟩ := by
    simp [Get, get, getLocked, overMax, hs, hi, hc]
  have hb : (err.isNet || err.isTransport) = true := by
    rcases ht with h | h <;> simp [h]
  by_cases hput : p.count ≤ p.config.MaxConn ∧ Check ePut { id := i, t := 0 } = true
  · have h2 : ¬ p.config.MaxConn < p.count := (Int32.not_lt _ _).mpr hput.1
    have hdo : Client.doFn eGet eRe ePut fuel fn p now
        = some ⟨none, { p with idle := { id := i, t := now } :: rest }, now,
            [Event.lock, Event.unlock, Event.close c, Event.dial, Event.lock, Event.unlock],
            [c, { id := i, t := 0 }], 1⟩ := by
      simp [Client.doFn, hget, hfn, hb, Reconnect, NewConn, hd, hn, doDeferred, Put, hs,
        hput.2, h2, hfn2]
    refine ⟨_, hdo, rfl, by simp [dialEvents], by simp [closedConns], rfl, rfl, ?_, ?_⟩
    · intro _
      exact ⟨by simp [closedConns], rfl, rfl⟩
    · intro h
      rcases h with h | h
      · exact absurd h h2
      · rw [hput.2] at h
        exact absurd h (by decide)
  · have hor : (decide (p.config.MaxConn < p.count) || !Check ePut { id := i, t := 0 })
        = true := by
      by_cases h1 : p.config.MaxConn < p.count
      · simp [h1]
      · have h3 : p.count ≤ p.config.MaxConn := (Int32.not_lt _ _).mp h1
        have h4 : Check ePut { id := i, t := 0 } = false := by
          cases h5 : Check ePut { id := i, t := 0 }
          · rfl
          · exact absurd ⟨h3, h5⟩ hput
        simp [h4]
    have hdo : Client.doFn eGet eRe ePut fuel fn p now
        = some ⟨none, { p with idle := rest, count := p.count - 1 }, now,
            [Event.lock, Event.unlock, Event.close c, Event.dial,
              Event.close { id := i, t := 0 }],
            [c, { id := i, t := 0 }], 1⟩ := by
      have hor2 : (decide (p.count > p.config.MaxConn) || !Check ePut { id := i, t := 0 })
          = true := hor
      simp only [Client.doFn, hget, hfn, hb, Reconnect, NewConn, hd, hn, doDeferred, Put, hs,
        hfn2, Int32.sub_one]
      simp [hor2, hfn2]
    refine ⟨_, hdo, rfl, by simp [dialEvents], by simp [closedConns], rfl, rfl, ?_, ?_⟩
    · intro h
      exact absurd h hput
    · intro _
      exact ⟨by simp [closedConns], rfl⟩

theorem C23_single_retry_witness :
    idlePool.status = PoolStatus.Open ∧
    idlePool.idle = { id := 7, t := 5 } :: [] ∧
    Check (envUp 1) { id := 7, t := 5 } = true ∧
    fnNetOnce 0 { id := 7, t := 5 } = some (Error.net 1) ∧
    (envUp 8).dial = .ok 8 ∧ Check (envUp 8) { id := 8, t := 0 } = true ∧
    fnNetOnce 1 { id := 8, t := 0 } = none ∧
    ∃ out, Client.doFn (envUp 1) (envUp 8) (envUp 0) 0 fnNetOnce idlePool 10 = some out ∧
      out.ret = none ∧ dialEvents out.trace = 1 ∧
      (closedConns out.trace).head? = some { id := 7, t := 5 } ∧
      out.calls = [{ id := 7, t := 5 }, { id := 8, t := 0 }] ∧ out.reconnects = 1 ∧
      (idlePool.count ≤ idlePool.config.MaxConn ∧ Check (envUp 0) { id := 8, t := 0 } = true →
        closedConns out.trace = [{ id := 7, t := 5 }] ∧
        out.pool = { idlePool with idle := { id := 8, t := 10 } :: [] } ∧
        out.pool.count = idlePool.count) ∧
      (idlePool.config.MaxConn < idlePool.count ∨ Check (envUp 0) { id := 8, t := 0 } = false →
        closedConns out.trace = [{ id := 7, t := 5 }, { id := 8, t := 0 }] ∧
        out.pool = { idlePool with idle := [], count := idlePool.count - 1 }) :=
  ⟨rfl, rfl, rfl, rfl, rfl, rfl, rfl,
    C23_single_retry (envUp 1) (envUp 8) (envUp 0) 0 fnNetOnce idlePool 10 _ [] _ 8
      rfl rfl rfl rfl (Or.inl rfl) rfl rfl rfl⟩

/-- C24, evaluated where the code breaks it: on the open pool of `cfg1` with handle 7 idle,
`fn` fails with a `net.Error` on handle 7, `Reconnect` yields the alive handle 8, and `fn`
fails with a `net.Error` again. `do` returns the second error, but the deferred function runs
with the nil `err` that `Reconnect` left and puts handle 8 back: it is at the front of the idle
queue, the counter is still 1, and the only handle closed is handle 7. -/
theorem C24_replacement_put_back :
    Option.map DoOut.view
        (Client.doFn (envUp 1) (envUp 8) (envUp 0) 0 fnNetAlways idlePool 10)
      = some (some (Error.net 2), [{ id := 8, t := 10 }], 1, [{ id := 7, t := 5 }],
          [{ id := 7, t := 5 }, { id := 8, t := 0 }]) := by
  rfl

/-- C25: whatever `fn` does, a call of `do` whose `Get` returns does return; it invokes `fn` at
most twice and calls `Reconnect` at most once, and when it invokes `fn` a second time it
returns exactly what that second invocation returns. -/
theorem C25_bounded_retry (eGet eRe ePut : Env) (fuel : Nat)
    (fn : Nat → Conn → Option Error) (p : ThriftPool) (now : Int)
    (g : Out (Except Error Conn)) (hg : Get eGet fuel p now = some g) :
    ∃ out, Client.doFn eGet eRe ePut fuel fn p now = some out ∧
      out.calls.length ≤ 2 ∧ out.reconnects ≤ 1 ∧
      (∀ c1 c2, out.calls = [c1, c2] → out.ret = fn 1 c2 ∧ out.reconnects = 1) := by
  simp only [Client.doFn, hg]
  cases hr : g.ret with
  | error err => exact ⟨_, rfl, by simp, by simp, by simp⟩
  | ok c =>
    simp only
    cases hf : fn 0 c with
    | none => exact ⟨_, rfl, by simp, by simp, by simp⟩
    | some err =>
      simp only
      by_cases hb : (err.isNet || err.isTransport) = true
      · simp only [hb, if_true]
        cases hrr : (Reconnect eRe g.pool g.now (some c)).ret with
        | error err2 => exact ⟨_, rfl, by simp, by simp, by simp⟩
        | ok c2 =>
          refine ⟨_, rfl, by simp, by simp, ?_⟩
          intro c1 c3 h
          simp only [List.cons.injEq, and_true] at h
          rw [← h.2]
          exact ⟨rfl, rfl⟩
      · simp only [hb]
        exact ⟨_, rfl, by simp, by simp, by simp⟩

theorem C25_bounded_retry_witness :
    Get (envUp 1) 0 idlePool 10
      = some ⟨.ok { id := 7, t := 5 }, { idlePool with idle := [] }, 10,
          [Event.lock, Event.unlock]⟩ ∧
    ∃ out, Client.doFn (envUp 1) (envUp 8) (envUp 0) 0 fnNetAlways idlePool 10 = some out ∧
      out.calls.length ≤ 2 ∧ out.reconnects ≤ 1 ∧
      (∀ c1 c2, out.calls = [c1, c2] → out.ret = fnNetAlways 1 c2 ∧ out.reconnects = 1) :=
  ⟨rfl, C25_bounded_retry (envUp 1) (envUp 8) (envUp 0) 0 fnNetAlways idlePool 10 _ rfl⟩

/-- C26, as stated, fails at the least value of `int32`: on `minPool` (counter `-2^31`, handle
7 idle and alive) `fn` fails with a `net.Error` on handle 7 and the dial of `Reconnect` fails;
`do` returns the dial error and the counter, `-2147483648` while handle 7 was borrowed, is
`2147483647` afterwards, not one below. -/
theorem C26_counterexample :
    Option.map Out.countVal (Get (envUp 1) 0 minPool 10) = some (-2147483648) ∧
    fnNetOnce 0 { id := 7, t := 5 } = some (Error.net 1) ∧
    Option.map DoOut.view (Client.doFn (envUp 1) envOff (envUp 0) 0 fnNetOnce minPool 10)
      = some (some (Error.net 111), [], 2147483647, [{ id := 7, t := 5 }],
          [{ id := 7, t := 5 }]) := by
  decide

/-- C26, amended: when `Get` succeeds with handle `c`, `fn` fails on `c` with a `net.Error` or
a `thrift.TTransportException`, and `Reconnect` fails, `do` returns the error of `Reconnect`
(the dial error, or `ErrSocketDisconnect` for a dead new handle), not the error of `fn`; it
invokes `fn` exactly once, closes `c`, puts no handle into the idle queue (the deferred
function finds a nil `client`), and decrements the counter once in `int32` arithmetic: the
counter is one below its value while `c` was borrowed when that value is above `-2^31`, and
`2147483647` when it is `-2^31`. -/
theorem C26_failed_replacement (eGet eRe ePut : Env) (fuel : Nat)
    (fn : Nat → Conn → Option Error) (p : ThriftPool) (now : Int)
    (g : Out (Except Error Conn)) (c : Conn) (err : Error)
    (hg : Get eGet fuel p now = some g) (hc : g.ret = .ok c) (hfn : fn 0 c = some err)
    (ht : err.isNet = true ∨ err.isTransport = true) :
    (∀ derr, eRe.dial = .error derr →
      Client.doFn eGet eRe ePut fuel fn p now
        = some ⟨some derr, { g.pool with count := g.pool.count - 1 }, g.now,
            g.trace ++ [Event.close c, Event.dial], [c], 1⟩) ∧
    (∀ i, eRe.dial = .ok i → Check eRe { id := i, t := 0 } = false →
      Client.doFn eGet eRe ePut fuel fn p now
        = some ⟨some Error.ErrSocketDisconnect, { g.pool with count := g.pool.count - 1 },
            g.now, g.trace ++ [Event.close c, Event.dial], [c], 1⟩) ∧
    (-2147483648 < g.pool.count.val → (g.pool.count - 1).val = g.pool.count.val - 1) ∧
    (g.pool.count.val = -2147483648 → (g.pool.count - 1).val = 2147483647) := by
  have hb : (err.isNet || err.isTransport) = true := by
    rcases ht with h | h <;> simp [h]
  have hlo := g.pool.count.lo
  have hhi := g.pool.count.hi
  refine ⟨?_, ?_, ?_, ?_⟩
  · intro derr hd
    simp [Client.doFn, hg, hc, hfn, hb, Reconnect, NewConn, hd, Int32.sub_one]
  · intro i hd hn
    simp [Client.doFn, hg, hc, hfn, hb, Reconnect, NewConn, hd, hn, Int32.sub_one]
  · intro h
    rw [Int32.sub_one, AddInt32_val]
    omega
  · intro h
    rw [Int32.sub_one, AddInt32_val]
    omega

theorem C26_failed_replacement_witness :
    Get (envUp 1) 0 idlePool 10
      = some ⟨.ok { id := 7, t := 5 }, { idlePool with idle := [] }, 10,
          [Event.lock, Event.unlock]⟩ ∧
    fnNetOnce 0 { id := 7, t := 5 } = some (Error.net 1) ∧
    envOff.dial = .error (Error.net 111) ∧
    Option.map DoOut.view (Client.doFn (envUp 1) envOff (envUp 0) 0 fnNetOnce idlePool 10)
      = some (some (Error.net 111), [], 0, [{ id := 7, t := 5 }], [{ id := 7, t := 5 }]) := by
  have h := (C26_failed_replacement (envUp 1) envOff (envUp 0) 0 fnNetOnce idlePool 10
    ⟨.ok { id := 7, t := 5 }, { idlePool with idle := [] }, 10, [Event.lock, Event.unlock]⟩
    { id := 7, t := 5 } (Error.net 1) rfl rfl rfl (Or.inl rfl)).1 (Error.net 111) rfl
  refine ⟨rfl, rfl, rfl, ?_⟩
  rw [h]
  rfl

/-! ## Recency order of the idle queue and eviction -/

/-- What a step does to the idle queue and the clock: the clock does not go back, and the idle
queue either loses entries (keeping the order of the others) or gains, at its front, one entry
stamped with the clock. -/
theorem step_idle (strict : Bool) (s s1 : Sys) (op : Op) (h : step strict s op = some s1) :
    s.now ≤ s1.now ∧
    (s1.pool.idle.Sublist s.pool.idle ∨
      ∃ c : Conn, s1.pool.idle = { c with t := s.now } :: s.pool.idle) := by
  cases op with
  | Get e fuel =>
    simp only [step] at h
    split at h
    · cases h
    · rename_i out hget
      unfold Get at hget
      have hout : s.now ≤ out.now ∧ out.pool.idle.Sublist s.pool.idle := by
        rcases get_cases _ _ _ _ _ _ hget with
          ⟨hp, _, _, _, hn⟩ | ⟨_, _, now1, tr, hn, hc, hd, rfl⟩
        · rw [hp]; exact ⟨hn, List.Sublist.refl _⟩
        · obtain ⟨hnow, _, _, _, hcases⟩ := getLocked_cases e s.pool now1 tr hc hd
          refine ⟨by rw [hnow]; exact hn, ?_⟩
          rcases hcases with ⟨_, _, hidle, _, _⟩ | ⟨_, _, hidle, _, _⟩ |
            ⟨_, _, hidle, _, _⟩ | ⟨c, rest, hi, _, hidle, _, _⟩ | ⟨c, rest, hi, _, hidle, _, _⟩
          · rw [hidle]; exact List.nil_sublist _
          · rw [hidle]; exact List.nil_sublist _
          · rw [hidle]; exact List.nil_sublist _
          · rw [hidle, hi]; exact List.sublist_cons_self _ _
          · rw [hidle, hi]; exact List.sublist_cons_self _ _
      split at h <;> cases h <;> exact ⟨hout.1, Or.inl hout.2⟩
  | Put e c =>
    simp only [step] at h
    split at h
    · cases h
      obtain ⟨hnow, _, _, hcases⟩ := Put_cases e s.pool s.now c
      refine ⟨by dsimp only; rw [hnow], ?_⟩
      dsimp only
      rcases hcases with ⟨_, hp, _⟩ | ⟨_, hidle, _, _⟩ | ⟨_, hidle, _, _⟩
      · rw [hp]; exact Or.inl (List.Sublist.refl _)
      · rw [hidle]; exact Or.inl (List.Sublist.refl _)
      · exact Or.inr ⟨c, hidle⟩
    · cases h
  | Reconnect e c =>
    simp only [step] at h
    split at h
    · obtain ⟨hnow, _, _, hidle, _, _⟩ := Reconnect_cases e s.pool s.now c
      split at h <;> cases h <;>
        exact ⟨by dsimp only; rw [hnow], Or.inl (by dsimp only; rw [hidle])⟩
    · cases h
  | CloseConn c =>
    simp only [step] at h
    split at h
    · cases h
      exact ⟨le_refl _, Or.inl (List.Sublist.refl _)⟩
    · cases h
  | CheckTimeout =>
    simp only [step] at h
    cases h
    obtain ⟨hnow, _, _, hidle, _, _⟩ := CheckTimeout_spec s.pool s.now
    refine ⟨by dsimp only; rw [hnow], Or.inl ?_⟩
    dsimp only
    have hsub := List.sublist_append_left (CheckTimeout s.pool s.now).pool.idle
      (evict s.pool.config.IdleTimeout s.now s.pool.idle.reverse).2.reverse
    rw [hidle] at hsub
    exact hsub
  | Release =>
    simp only [step] at h
    cases h
    exact ⟨le_refl _, Or.inl (List.nil_sublist _)⟩
  | Recover =>
    simp only [step] at h
    cases h
    exact ⟨le_refl _, Or.inl (List.Sublist.refl _)⟩
  | tick d =>
    simp only [step] at h
    cases h
    exact ⟨by dsimp only; omega, Or.inl (List.Sublist.refl _)⟩

theorem step_Ordered (strict : Bool) (s s1 : Sys) (op : Op) (hO : Ordered s)
    (h : step strict s op = some s1) : Ordered s1 := by
  obtain ⟨hn, hidle⟩ := step_idle strict s s1 op h
  rcases hidle with hsub | ⟨c, hc⟩
  · exact ⟨hO.1.sublist hsub, fun x hx => le_trans (hO.2 x (hsub.subset hx)) hn⟩
  · unfold Ordered
    rw [hc]
    refine ⟨List.pairwise_cons.mpr ⟨fun b hb => hO.2 b hb, hO.1⟩, ?_⟩
    intro x hx
    rcases List.mem_cons.mp hx with hx | hx
    · rw [hx]; exact hn
    · exact le_trans (hO.2 x hx) hn

/-- The idle queue is in recency order in every state that a run reaches, under either
discipline. -/
theorem run_Ordered (strict : Bool) (ops : List Op) :
    ∀ (s s1 : Sys), Ordered s → run strict s ops = some s1 → Ordered s1 := by
  induction ops with
  | nil =>
    intro s s1 hO h
    simp only [run] at h
    cases h
    exact hO
  | cons op rest ih =>
    intro s s1 hO h
    simp only [run] at h
    split at h
    · cases h
    · rename_i s2 hs2
      exact ih s2 s1 (step_Ordered strict s s2 op hO hs2) h

theorem init_Ordered (cfg : ThriftPoolConfig) (now : Int) : Ordered (Sys.init cfg now) := by
  refine ⟨?_, ?_⟩
  · simp [Sys.init, newPool]
  · intro x hx
    simp [Sys.init, newPool] at hx

/-- On a list whose times do not decrease, nothing expired is left behind the expired run at
its head. -/
theorem dropWhile_expired_fresh (d now : Int) (l : List Conn)
    (hl : l.Pairwise (fun a b => a.t ≤ b.t)) :
    ∀ c ∈ l.dropWhile (expired d now), now < c.t + d := by
  induction l with
  | nil => intro c hc; simp at hc
  | cons v rest ih =>
    intro c hc
    obtain ⟨hv, hrest⟩ := List.pairwise_cons.mp hl
    by_cases hx : expired d now v = true
    · rw [List.dropWhile_cons_of_pos hx] at hc
      exact ih hrest c hc
    · rw [List.dropWhile_cons_of_neg hx] at hc
      have hvf : now < v.t + d := by
        simp only [expired, decide_eq_true_eq] at hx
        omega
      rcases List.mem_cons.mp hc with hc | hc
      · rw [hc]; exact hvf
      · have := hv c hc
        omega

/-- The idle queue and the closed handles of `CheckTimeout`, by `dropWhile` and `takeWhile` on
the queue read back first. -/
theorem CheckTimeout_eq (p : ThriftPool) (now : Int) :
    (CheckTimeout p now).pool.idle
      = (p.idle.reverse.dropWhile (expired p.config.IdleTimeout now)).reverse ∧
    closedConns (CheckTimeout p now).trace
      = p.idle.reverse.takeWhile (expired p.config.IdleTimeout now) ∧
    (CheckTimeout p now).pool.count
      = AddInt32 p.count (-((closedConns (CheckTimeout p now).trace).length : Int)) := by
  have hcl : closedConns (CheckTimeout p now).trace
      = p.idle.reverse.takeWhile (expired p.config.IdleTimeout now) := by
    simp [CheckTimeout, evict_eq, closedConns, closedConns_append, closedConns_evictEvents]
  refine ⟨by simp [CheckTimeout, evict_eq], hcl, ?_⟩
  rw [hcl]
  simp [CheckTimeout, evict_eq, foldl_AddInt32]

/-- On a pool whose idle queue is in recency order, `CheckTimeout` at clock `now` splits the
queue into the entries it keeps, none of them expired, and the handles it closes, all of them
expired. -/
theorem CheckTimeout_split (p : ThriftPool) (now : Int)
    (hp : p.idle.Pairwise (fun a b => b.t ≤ a.t)) :
    (CheckTimeout p now).pool.idle ++ (closedConns (CheckTimeout p now).trace).reverse
      = p.idle ∧
    (∀ c ∈ (CheckTimeout p now).pool.idle, now < c.t + p.config.IdleTimeout) ∧
    (∀ c ∈ closedConns (CheckTimeout p now).trace, c.t + p.config.IdleTimeout ≤ now) := by
  obtain ⟨hidle, hcl, _⟩ := CheckTimeout_eq p now
  refine ⟨?_, ?_, ?_⟩
  · rw [hidle, hcl, ← List.reverse_append, List.takeWhile_append_dropWhile,
      List.reverse_reverse]
  · intro c hc
    rw [hidle, List.mem_reverse] at hc
    exact dropWhile_expired_fresh _ _ _ (List.pairwise_reverse.mpr hp) c hc
  · intro c hc
    rw [hcl] at hc
    have h := List.mem_takeWhile_imp hc
    simpa [expired] using h

/-- C21: in every state that a run reaches (the clock of a run never goes back), an idle handle
carries the time `t` at which `Put` placed it in the queue, and for `CheckTimeout` run at any
clock `now`: every idle handle with `t + IdleTimeout ≤ now` is closed and is no longer idle;
every idle handle with `t + IdleTimeout > now` is not closed and is still idle; only handles
that were idle are closed (a handle that was borrowed again is not in the queue, and is neither
closed nor removed); and the counter is decremented once for every handle closed: it is
`count` less the number of handles closed, as integers when that is no less than `-2^31`, as it
is in every state reached under the strict discipline. -/
theorem C21_eviction (strict : Bool) (cfg : ThriftPoolConfig) (t0 : Int) (ops : List Op)
    (s : Sys) (now : Int) (h : run strict (Sys.init cfg t0) ops = some s) :
    (∀ c ∈ s.pool.idle, c.t + s.pool.config.IdleTimeout ≤ now →
      c ∈ closedConns (CheckTimeout s.pool now).trace ∧
      c ∉ (CheckTimeout s.pool now).pool.idle) ∧
    (∀ c ∈ s.pool.idle, now < c.t + s.pool.config.IdleTimeout →
      c ∉ closedConns (CheckTimeout s.pool now).trace ∧
      c ∈ (CheckTimeout s.pool now).pool.idle) ∧
    (∀ c ∈ closedConns (CheckTimeout s.pool now).trace, c ∈ s.pool.idle) ∧
    (∀ c, c ∉ s.pool.idle →
      c ∉ closedConns (CheckTimeout s.pool now).trace ∧
      c ∉ (CheckTimeout s.pool now).pool.idle) ∧
    (CheckTimeout s.pool now).pool.count
      = AddInt32 s.pool.count
          (-((closedConns (CheckTimeout s.pool now).trace).length : Int)) ∧
    (-2147483648
        ≤ s.pool.count.val - ((closedConns (CheckTimeout s.pool now).trace).length : Int) →
      (CheckTimeout s.pool now).pool.count.val
        = s.pool.count.val - ((closedConns (CheckTimeout s.pool now).trace).length : Int)) ∧
    (strict = true →
      (CheckTimeout s.pool now).pool.count.val
        = s.pool.count.val - ((closedConns (CheckTimeout s.pool now).trace).length : Int)) := by
  have hO := run_Ordered strict ops _ s (init_Ordered cfg t0) h
  obtain ⟨happ, hfresh, hexp⟩ := CheckTimeout_split s.pool now hO.1
  have hmem : ∀ c, c ∈ s.pool.idle ↔
      c ∈ (CheckTimeout s.pool now).pool.idle ∨
      c ∈ closedConns (CheckTimeout s.pool now).trace := by
    intro c
    rw [← happ, List.mem_append, List.mem_reverse]
  have hcnt := (CheckTimeout_eq s.pool now).2.2
  have hwrap : -2147483648
        ≤ s.pool.count.val - ((closedConns (CheckTimeout s.pool now).trace).length : Int) →
      (CheckTimeout s.pool now).pool.count.val
        = s.pool.count.val
          - ((closedConns (CheckTimeout s.pool now).trace).length : Int) := by
    intro hle
    have hhi := s.pool.count.hi
    rw [hcnt, AddInt32_val]
    omega
  refine ⟨?_, ?_, ?_, ?_, hcnt, hwrap, ?_⟩
  rotate_right
  · intro hst
    subst hst
    have hI := run_Inv cfg ops _ s (init_Inv cfg t0) h
    have hlen : (closedConns (CheckTimeout s.pool now).trace).length
        + (CheckTimeout s.pool now).pool.idle.length = s.pool.idle.length := by
      have := congrArg List.length happ
      simp only [List.length_append, List.length_reverse] at this
      omega
    have := hI.count
    apply hwrap
    omega
  · intro c hc hx
    have hnot : c ∉ (CheckTimeout s.pool now).pool.idle := by
      intro hin
      have := hfresh c hin
      omega
    rcases (hmem c).mp hc with h1 | h1
    · exact absurd h1 hnot
    · exact ⟨h1, hnot⟩
  · intro c hc hx
    have hnot : c ∉ closedConns (CheckTimeout s.pool now).trace := by
      intro hin
      have := hexp c hin
      omega
    rcases (hmem c).mp hc with h1 | h1
    · exact ⟨hnot, h1⟩
    · exact absurd h1 hnot
  · intro c hc
    exact (hmem c).mpr (Or.inr hc)
  · intro c hc
    exact ⟨fun h1 => hc ((hmem c).mpr (Or.inr h1)), fun h1 => hc ((hmem c).mpr (Or.inl h1))⟩

theorem C21_eviction_witness :
    run true (Sys.init cfg4 0) twoIdleRun = some twoIdleEnd ∧
    ({ id := 7, t := 5 } : Conn) ∈ twoIdleEnd.pool.idle ∧
    ({ id := 7, t := 5 } : Conn).t + twoIdleEnd.pool.config.IdleTimeout ≤ 15 ∧
    ({ id := 7, t := 5 } : Conn) ∈ closedConns (CheckTimeout twoIdleEnd.pool 15).trace ∧
    ({ id := 7, t := 5 } : Conn) ∉ (CheckTimeout twoIdleEnd.pool 15).pool.idle ∧
    ({ id := 8, t := 9 } : Conn) ∈ twoIdleEnd.pool.idle ∧
    (15 : Int) < ({ id := 8, t := 9 } : Conn).t + twoIdleEnd.pool.config.IdleTimeout ∧
    ({ id := 8, t := 9 } : Conn) ∉ closedConns (CheckTimeout twoIdleEnd.pool 15).trace ∧
    ({ id := 8, t := 9 } : Conn) ∈ (CheckTimeout twoIdleEnd.pool 15).pool.idle :=
  ⟨by decide, by decide, by decide,
    (C21_eviction true cfg4 0 twoIdleRun twoIdleEnd 15 (by decide)).1 _ (by decide)
      (by decide) |>.1,
    (C21_eviction true cfg4 0 twoIdleRun twoIdleEnd 15 (by decide)).1 _ (by decide)
      (by decide) |>.2,
    by decide, by decide,
    (C21_eviction true cfg4 0 twoIdleRun twoIdleEnd 15 (by decide)).2.1 _ (by decide)
      (by decide) |>.1,
    (C21_eviction true cfg4 0 twoIdleRun twoIdleEnd 15 (by decide)).2.1 _ (by decide)
      (by decide) |>.2⟩

/-- C27: in every state that a run reaches (the clock of a run never goes back), the times `t`
of the idle entries do not increase from the front to the back of the queue, none is after the
clock, and after `CheckTimeout` at any clock `now` no idle entry, wherever it is in the queue,
has `t + IdleTimeout ≤ now`. -/
theorem C27_recency_order (strict : Bool) (cfg : ThriftPoolConfig) (t0 : Int)
    (ops : List Op) (s : Sys) (now : Int) (h : run strict (Sys.init cfg t0) ops = some s) :
    s.pool.idle.Pairwise (fun a b => b.t ≤ a.t) ∧
    (∀ c ∈ s.pool.idle, c.t ≤ s.now) ∧
    (∀ c ∈ (CheckTimeout s.pool now).pool.idle, ¬ c.t + s.pool.config.IdleTimeout ≤ now) := by
  have hO := run_Ordered strict ops _ s (init_Ordered cfg t0) h
  obtain ⟨_, hfresh, _⟩ := CheckTimeout_split s.pool now hO.1
  refine ⟨hO.1, hO.2, ?_⟩
  intro c hc
  have := hfresh c hc
  omega

theorem C27_recency_order_witness :
    run false (Sys.init cfg4 0) twoIdleRun = some twoIdleEnd ∧
    twoIdleEnd.pool.idle.Pairwise (fun a b => b.t ≤ a.t) ∧
    (∀ c ∈ twoIdleEnd.pool.idle, c.t ≤ twoIdleEnd.now) ∧
    (∀ c ∈ (CheckTimeout twoIdleEnd.pool 15).pool.idle,
      ¬ c.t + twoIdleEnd.pool.config.IdleTimeout ≤ 15) :=
  ⟨by decide, C27_recency_order false cfg4 0 twoIdleRun twoIdleEnd 15 (by decide)⟩

/-! ## Lock discipline -/

end Aliexhbase
